import Mathlib

/-!
# EasyLPAC command adapter (`cmd.go`): a shallow embedding

The development follows `runLpac` of `cmd.go`: the captured standard output of
the driver is cut into lines, every line is handed to `json.Unmarshal` with the
one `LpacReturnValue` record that lives across the whole loop, and a record of
type `lpa` with a non-zero code is rendered into an error whose data part goes
through the local closure `wrapText`.

Go strings and byte slices are lists of Unicode scalar values here (`Text`),
which is the valid UTF-8 part of the input space; byte counts are taken through
`Char.utf8Size`.  The library functions the code calls and whose result depends
on the installation (the display width of a rune, the text of a float) are the
fields of `GoLib`; the other library functions (`bufio.Scanner`,
`encoding/json`, `strings.Split`) are written out.
-/

namespace EasyLPAC

/-- A Go string or byte slice holding valid UTF-8. -/
abbrev Text := List Char

/-- Library behaviour that depends on the installation.
`RuneWidth` is `runewidth.RuneWidth` (0, 1 or 2 columns, East Asian ambiguous
width following the locale).  `FloatText lit` is the text `encoding/json` writes
for the `float64` that `strconv.ParseFloat` reads from the number literal `lit`,
and `none` when `ParseFloat` reports a range error.  `ShortEscapes` says whether
the encoder writes backspace and form feed as two-character escapes (Go 1.22 and
later) or as six-character unicode escapes. -/
structure GoLib where
  RuneWidth : Char → Nat
  FloatText : Text → Option Text
  ShortEscapes : Bool

/-! ## `strings.Split(text, "\n")` and `wrapText` -/

/-- The call `strings.Split(text, "\n")`: the pieces between newlines, a single
empty piece for the empty text. -/
def splitNewline : Text → List Text
  | [] => [[]]
  | c :: cs =>
    if c = '\n' then [] :: splitNewline cs
    else
      match splitNewline cs with
      | [] => [[c]]
      | l :: ls => (c :: l) :: ls

/-- The three variables the loops of `wrapText` update: the builder
`wrappedText`, the builder `currentLine` and the counter `currentWidth`. -/
structure WrapState where
  wrappedText : Text
  currentLine : Text
  currentWidth : Nat

/-- One turn of the inner loop of `wrapText` (`for _, runeValue := range line`). -/
def wrapRune (lib : GoLib) (maxWidth : Nat) (st : WrapState) (runeValue : Char) : WrapState :=
  let runeWidth := lib.RuneWidth runeValue
  let st1 : WrapState :=
    if st.currentWidth + runeWidth > maxWidth then
      { wrappedText := st.wrappedText ++ (st.currentLine ++ ['\n']), currentLine := [], currentWidth := 0 }
    else st
  { wrappedText := st1.wrappedText
    currentLine := st1.currentLine ++ [runeValue]
    currentWidth := st1.currentWidth + runeWidth }

/-- One turn of the outer loop of `wrapText` (`for _, line := range lines`):
the builder `wrappedText` before the turn is mapped to the builder after it. -/
def wrapLine (lib : GoLib) (maxWidth : Nat) (wrappedText : Text) (line : Text) : Text :=
  let st := line.foldl (wrapRune lib maxWidth) { wrappedText := wrappedText, currentLine := [], currentWidth := 0 }
  if st.currentLine.length > 0 then st.wrappedText ++ (st.currentLine ++ ['\n'])
  else st.wrappedText

/-- The closure `wrapText` of `runLpac`. -/
def wrapText (lib : GoLib) (text : Text) (maxWidth : Nat) : Text :=
  (splitNewline text).foldl (wrapLine lib maxWidth) []

/-- Display width of a piece of text: the sum of the widths of its runes. -/
def displayWidth (lib : GoLib) (t : Text) : Nat :=
  (t.map lib.RuneWidth).sum

/-! ## `bufio.Scanner` with the default split function and buffer -/

/-- The constant `bufio.MaxScanTokenSize`. -/
def MaxScanTokenSize : Nat := 64 * 1024

/-- Number of bytes of the UTF-8 encoding. -/
def utf8Len (t : Text) : Nat :=
  (t.map Char.utf8Size).sum

/-- The helper `dropCR` of `bufio.ScanLines`: one trailing carriage return is removed. -/
def dropCR (t : Text) : Text :=
  if t.getLast? = some '\r' then t.dropLast else t

/-- The tokens `Scan` hands out for the pieces between newlines, in order, and
whether scanning stopped with `bufio.ErrTooLong`: a piece that fills the
64 KiB buffer before its newline (or before the end of the input) stops the
scanner, and the pieces behind it are never delivered. -/
def scanTokens : List Text → List Text × Bool
  | [] => ([], false)
  | piece :: rest =>
    if utf8Len piece ≥ MaxScanTokenSize then ([], true)
    else ((dropCR piece) :: (scanTokens rest).1, (scanTokens rest).2)

/-- The lines `for scanner.Scan()` visits on the captured output, with the flag
for `scanner.Err() != nil`.  The empty piece after a final newline (and the one
piece of the empty input) is no line. -/
def scanLines (stdout : Text) : List Text × Bool :=
  let pieces := splitNewline stdout
  scanTokens (if pieces.getLast? = some [] then pieces.dropLast else pieces)

/-- Text of `bufio.ErrTooLong`. -/
def ErrTooLong : Text := "bufio.Scanner: token too long".toList

/-! ## `encoding/json`: the syntax of a JSON text -/

/-- A JSON value as the decoder walks it.  A number keeps its literal, a string is
unquoted, and every member of an object keeps, next to its unquoted key, the
exact source text of its value (what a `json.RawMessage` field receives). -/
inductive JValue where
  | null
  | bool (b : Bool)
  | num (lit : Text)
  | str (s : Text)
  | arr (items : List JValue)
  | obj (members : List (Text × Text × JValue))

/-- The function `isSpace` of the JSON scanner. -/
def isSpace (c : Char) : Bool :=
  c = ' ' || c = '\t' || c = '\r' || c = '\n'

/-- Skips JSON white space. -/
def skipSpace : Text → Text
  | [] => []
  | c :: cs => if isSpace c then skipSpace cs else c :: cs

/-- The constant `maxNestingDepth` of the JSON scanner. -/
def maxNestingDepth : Nat := 10000

/-- Value of a hexadecimal digit. -/
def hexVal (c : Char) : Option Nat :=
  if '0' ≤ c ∧ c ≤ '9' then some (c.toNat - '0'.toNat)
  else if 'a' ≤ c ∧ c ≤ 'f' then some (c.toNat - 'a'.toNat + 10)
  else if 'A' ≤ c ∧ c ≤ 'F' then some (c.toNat - 'A'.toNat + 10)
  else none

/-- The function `getu4`: the code unit written by four hexadecimal digits. -/
def getu4 (a b c d : Char) : Option Nat :=
  match hexVal a, hexVal b, hexVal c, hexVal d with
  | some x, some y, some z, some w => some (((x * 16 + y) * 16 + z) * 16 + w)
  | _, _, _, _ => none

/-- The rune `unicode.ReplacementChar`. -/
def replacementChar : Char := Char.ofNat 0xFFFD

/-- The function `utf16.DecodeRune` on two code units: the rune of a valid surrogate
pair, the replacement rune otherwise. -/
def decodeSurrogates (r1 r2 : Nat) : Char :=
  if 0xD800 ≤ r1 ∧ r1 < 0xDC00 ∧ 0xDC00 ≤ r2 ∧ r2 < 0xE000 then
    Char.ofNat ((r1 - 0xD800) * 1024 + (r2 - 0xDC00) + 0x10000)
  else replacementChar

/-- The rune of a one-letter escape. -/
def unescape (c : Char) : Option Char :=
  if c = '"' then some '"'
  else if c = '\\' then some '\\'
  else if c = '/' then some '/'
  else if c = 'b' then some (Char.ofNat 8)
  else if c = 'f' then some (Char.ofNat 12)
  else if c = 'n' then some '\n'
  else if c = 'r' then some '\r'
  else if c = 't' then some '\t'
  else none

/-- One unit of a string literal: a rune (written plainly or by a one-letter
escape) or the 16-bit code unit of a unicode escape. -/
inductive StrUnit where
  | rune (c : Char)
  | unit (u : Nat)

/-- Puts a unit in front of the units scanned behind it. -/
def consUnit (x : StrUnit) : Option (List StrUnit × Text) → Option (List StrUnit × Text)
  | some (s, rest) => some (x :: s, rest)
  | none => none

/-- Scans a string literal behind its opening quote: its units and the input behind
the closing quote.  A control character, an unknown escape, a unicode escape without
four hexadecimal digits or a missing closing quote is a syntax error. -/
def scanUnits : Text → Option (List StrUnit × Text)
  | [] => none
  | [c] => if c = '"' then some ([], []) else none
  | c :: e :: rest =>
    if c = '"' then some ([], e :: rest)
    else if c = '\\' then
      if e = 'u' then
        match rest with
        | a :: b :: c1 :: d :: rest1 =>
          match getu4 a b c1 d with
          | some u => consUnit (StrUnit.unit u) (scanUnits rest1)
          | none => none
        | _ => none
      else
        match unescape e with
        | some r => consUnit (StrUnit.rune r) (scanUnits rest)
        | none => none
    else if c.toNat < 0x20 then none
    else consUnit (StrUnit.rune c) (scanUnits (e :: rest))

/-- The rune of a unicode escape that is not joined with the one behind it: the
replacement rune for half of a surrogate pair. -/
def unitRune (u : Nat) : Char :=
  if 0xD800 ≤ u ∧ u < 0xE000 then replacementChar else Char.ofNat u

/-- The function `unquote` on the units of a literal: a unicode escape that is half
of a surrogate pair is joined with the unicode escape right behind it when the two
form a valid pair, and is the replacement rune otherwise. -/
def joinUnits : List StrUnit → Text
  | [] => []
  | StrUnit.rune c :: r => c :: joinUnits r
  | [StrUnit.unit u] => [unitRune u]
  | StrUnit.unit u :: StrUnit.rune c :: r => unitRune u :: c :: joinUnits r
  | StrUnit.unit u :: StrUnit.unit v :: r =>
    if (0xD800 ≤ u ∧ u < 0xE000) ∧ decodeSurrogates u v ≠ replacementChar then
      decodeSurrogates u v :: joinUnits r
    else unitRune u :: joinUnits (StrUnit.unit v :: r)

/-- Scans a string literal behind its opening quote: the unquoted string and the
input behind the closing quote. -/
def scanString (s : Text) : Option (Text × Text) :=
  match scanUnits s with
  | some (us, rest) => some (joinUnits us, rest)
  | none => none

/-- Decimal digit. -/
def isDigit (c : Char) : Bool := '0' ≤ c && c ≤ '9'

/-- The longest run of digits at the head of the input, and the input behind it. -/
def takeDigits : Text → Text × Text
  | [] => ([], [])
  | c :: cs => if isDigit c then (c :: (takeDigits cs).1, (takeDigits cs).2) else ([], c :: cs)

/-- The exponent part of a number literal, if there is one; `acc` is the literal so far. -/
def scanExp (acc : Text) : Text → Option (Text × Text)
  | [] => some (acc, [])
  | e :: r =>
    if e = 'e' ∨ e = 'E' then
      match r with
      | s :: r1 =>
        if s = '+' ∨ s = '-' then
          (if (takeDigits r1).1 = [] then none
           else some (acc ++ e :: s :: (takeDigits r1).1, (takeDigits r1).2))
        else
          (if (takeDigits r).1 = [] then none
           else some (acc ++ e :: (takeDigits r).1, (takeDigits r).2))
      | [] => none
    else some (acc, e :: r)

/-- The fraction part of a number literal, if there is one, then the exponent part. -/
def scanFrac (acc : Text) : Text → Option (Text × Text)
  | [] => some (acc, [])
  | c :: r =>
    if c = '.' then
      (if (takeDigits r).1 = [] then none
       else scanExp (acc ++ '.' :: (takeDigits r).1) (takeDigits r).2)
    else scanExp acc (c :: r)

/-- The integer part of a number literal behind the optional sign: a single zero, or
a digit from one to nine with more digits. -/
def scanInt (sign : Text) : Text → Option (Text × Text)
  | [] => none
  | d :: r =>
    if d = '0' then scanFrac (sign ++ ['0']) r
    else if isDigit d then scanFrac (sign ++ d :: (takeDigits r).1) (takeDigits r).2
    else none

/-- Scans a number literal: the literal and the input behind it. -/
def scanNumber : Text → Option (Text × Text)
  | [] => none
  | c :: r => if c = '-' then scanInt ['-'] r else scanInt [] (c :: r)

/-- Removes a fixed word from the head of the input. -/
def stripWord : Text → Text → Option Text
  | [], s => some s
  | _ :: _, [] => none
  | w :: ws, c :: cs => if w = c then stripWord ws cs else none

mutual
/-- Reads one value at the head of the input (white space already skipped) nested in
`depth` containers: the value and the input behind it.  Every call spends one unit
of `fuel`; `parseJSON` starts with more fuel than the input has characters. -/
def parseValue : Nat → Nat → Text → Option (JValue × Text)
  | 0, _, _ => none
  | _ + 1, _, [] => none
  | fuel + 1, depth, c :: cs =>
    if c = '{' then
      if depth ≥ maxNestingDepth then none
      else
        match skipSpace cs with
        | [] => none
        | c1 :: r =>
          if c1 = '}' then some (JValue.obj [], r)
          else
            match parseMembers fuel (depth + 1) (c1 :: r) with
            | some (ms, r1) => some (JValue.obj ms, r1)
            | none => none
    else if c = '[' then
      if depth ≥ maxNestingDepth then none
      else
        match skipSpace cs with
        | [] => none
        | c1 :: r =>
          if c1 = ']' then some (JValue.arr [], r)
          else
            match parseElements fuel (depth + 1) (c1 :: r) with
            | some (vs, r1) => some (JValue.arr vs, r1)
            | none => none
    else if c = '"' then
      match scanString cs with
      | some (s, r) => some (JValue.str s, r)
      | none => none
    else if c = 't' then
      match stripWord ['r', 'u', 'e'] cs with
      | some r => some (JValue.bool true, r)
      | none => none
    else if c = 'f' then
      match stripWord ['a', 'l', 's', 'e'] cs with
      | some r => some (JValue.bool false, r)
      | none => none
    else if c = 'n' then
      match stripWord ['u', 'l', 'l'] cs with
      | some r => some (JValue.null, r)
      | none => none
    else
      match scanNumber (c :: cs) with
      | some (lit, r) => some (JValue.num lit, r)
      | none => none
/-- Reads the elements of an array up to and including the closing bracket; the
input starts at the first element. -/
def parseElements : Nat → Nat → Text → Option (List JValue × Text)
  | 0, _, _ => none
  | fuel + 1, depth, s =>
    match parseValue fuel depth s with
    | none => none
    | some (v, r) =>
      match skipSpace r with
      | [] => none
      | c :: r1 =>
        if c = ',' then
          match parseElements fuel depth (skipSpace r1) with
          | some (vs, r2) => some (v :: vs, r2)
          | none => none
        else if c = ']' then some ([v], r1)
        else none
/-- Reads the members of an object up to and including the closing brace; the input
starts at the quote of the first key. -/
def parseMembers : Nat → Nat → Text → Option (List (Text × Text × JValue) × Text)
  | 0, _, _ => none
  | _ + 1, _, [] => none
  | fuel + 1, depth, q :: s =>
    if q = '"' then
      match scanString s with
      | none => none
      | some (key, r) =>
        match skipSpace r with
        | [] => none
        | c :: r1 =>
          if c = ':' then
            match parseValue fuel depth (skipSpace r1) with
            | none => none
            | some (v, r2) =>
              match skipSpace r2 with
              | [] => none
              | c2 :: r3 =>
                if c2 = ',' then
                  match parseMembers fuel depth (skipSpace r3) with
                  | some (ms, r4) =>
                    some ((key, (skipSpace r1).take ((skipSpace r1).length - r2.length), v) :: ms, r4)
                  | none => none
                else if c2 = '}' then
                  some ([(key, (skipSpace r1).take ((skipSpace r1).length - r2.length), v)], r3)
                else none
          else none
    else none
end

/-- The syntax check and walk `json.Unmarshal` starts with (`checkValid`): the input
is one JSON value with white space around it, nested at most `maxNestingDepth`
deep; `none` is a syntax error. -/
def parseJSON (data : Text) : Option JValue :=
  match parseValue (data.length + 1) 0 (skipSpace data) with
  | some (v, rest) => if skipSpace rest = [] then some v else none
  | none => none

/-! ## `encoding/json`: storing a value into the envelope record -/

/-- Modelled from the spec: the type `LpacReturnValue` is declared outside `cmd.go`;
this is its `payload` part as the data model gives it, an integer `code`, a string
`message` and an opaque JSON value `data` (a `json.RawMessage`, whose nil value is
the empty text; a stored value is never empty). -/
structure Payload where
  Code : Int
  Message : Text
  Data : Text

/-- Modelled from the spec: the envelope record `LpacReturnValue`, with the JSON
member names `type` and `payload` of the stdout contract.  The Go field `Type` is
written `Type_`. -/
structure LpacReturnValue where
  Type_ : Text
  Payload : Payload

/-- The zero value `var resp LpacReturnValue`. -/
def zeroResp : LpacReturnValue :=
  { Type_ := [], Payload := { Code := 0, Message := [], Data := [] } }

/-- The smallest rune of the case-folding orbit, for the orbits of the ASCII letters
(the letters themselves, the long s and the Kelvin sign); the member names of the
envelope are made of ASCII letters, so other orbits never matter for a match. -/
def foldRune (c : Char) : Char :=
  if 'a' ≤ c ∧ c ≤ 'z' then Char.ofNat (c.toNat - 32)
  else if c = Char.ofNat 0x17F then 'S'
  else if c = Char.ofNat 0x212A then 'K'
  else c

/-- The function `foldName` of the decoder. -/
def foldName (k : Text) : Text := k.map foldRune

/-- Whether an object key selects the struct field with JSON name `name`: an exact
match, or else a match of the folded names. -/
def fieldMatch (name key : Text) : Bool :=
  key = name || foldName key = foldName name

/-- Value of a non-empty run of decimal digits, most significant first, on top of `acc`. -/
def digitsValue (acc : Nat) : Text → Option Nat
  | [] => some acc
  | c :: cs => if isDigit c then digitsValue (acc * 10 + (c.toNat - '0'.toNat)) cs else none

/-- The call `strconv.ParseInt(lit, 10, 64)` on a JSON number literal: `none` for a
literal with a fraction or an exponent and for a value outside the 64-bit range. -/
def parseInt64 (lit : Text) : Option Int :=
  match lit with
  | [] => none
  | c :: cs =>
    if c = '-' then
      match cs with
      | [] => none
      | _ :: _ =>
        match digitsValue 0 cs with
        | some n => if n ≤ 2 ^ 63 then some (-(n : Int)) else none
        | none => none
    else
      match digitsValue 0 (c :: cs) with
      | some n => if n < 2 ^ 63 then some (n : Int) else none
      | none => none

/-- Stores a value into a `string` destination: the destination afterwards and
`false` when the value does not fit (an `UnmarshalTypeError` is saved and the
destination keeps its content).  JSON null has no effect and is no error. -/
def storeString (v : JValue) (old : Text) : Text × Bool :=
  match v with
  | JValue.str s => (s, true)
  | JValue.null => (old, true)
  | _ => (old, false)

/-- Stores a value into an `int` destination (64 bits). -/
def storeInt (v : JValue) (old : Int) : Int × Bool :=
  match v with
  | JValue.num lit =>
    match parseInt64 lit with
    | some n => (n, true)
    | none => (old, false)
  | JValue.null => (old, true)
  | _ => (old, false)

/-- One member of the `payload` object: the field its key selects is assigned, an
unknown key is skipped.  The flag stays `false` once a value did not fit; the
members behind it are stored all the same. -/
def storePayloadMember (st : Payload × Bool) (m : Text × Text × JValue) : Payload × Bool :=
  if fieldMatch "code".toList m.1 then
    ({ st.1 with Code := (storeInt m.2.2 st.1.Code).1 }, st.2 && (storeInt m.2.2 st.1.Code).2)
  else if fieldMatch "message".toList m.1 then
    ({ st.1 with Message := (storeString m.2.2 st.1.Message).1 }, st.2 && (storeString m.2.2 st.1.Message).2)
  else if fieldMatch "data".toList m.1 then
    ({ st.1 with Data := m.2.1 }, st.2)
  else st

/-- Stores a value into the `Payload` field. -/
def storePayload (v : JValue) (old : Payload) : Payload × Bool :=
  match v with
  | JValue.obj ms => ms.foldl storePayloadMember (old, true)
  | JValue.null => (old, true)
  | _ => (old, false)

/-- One member of the envelope object. -/
def storeRespMember (st : LpacReturnValue × Bool) (m : Text × Text × JValue) : LpacReturnValue × Bool :=
  if fieldMatch "type".toList m.1 then
    ({ st.1 with Type_ := (storeString m.2.2 st.1.Type_).1 }, st.2 && (storeString m.2.2 st.1.Type_).2)
  else if fieldMatch "payload".toList m.1 then
    ({ st.1 with Payload := (storePayload m.2.2 st.1.Payload).1 }, st.2 && (storePayload m.2.2 st.1.Payload).2)
  else st

/-- Stores a value into the envelope record. -/
def storeResp (v : JValue) (old : LpacReturnValue) : LpacReturnValue × Bool :=
  match v with
  | JValue.obj ms => ms.foldl storeRespMember (old, true)
  | JValue.null => (old, true)
  | _ => (old, false)

/-- The call `json.Unmarshal(line, &resp)`: the record afterwards and whether the
returned error is nil.  A syntax error leaves the record as it was; a value that
does not fit its field is an error too, but the fields that do fit are assigned.
Fields for which the line has no member keep what the record held before. -/
def unmarshalResp (line : Text) (resp : LpacReturnValue) : LpacReturnValue × Bool :=
  match parseJSON line with
  | none => (resp, false)
  | some v => storeResp v resp

/-- The call `json.Unmarshal(data, &jsonString)`. -/
def unmarshalString (data : Text) (jsonString : Text) : Text × Bool :=
  match parseJSON data with
  | none => (jsonString, false)
  | some v => storeString v jsonString

/-! ## `encoding/json`: `map[string]interface{}` and `MarshalIndent` -/

/-- The values the decoder builds for `interface{}`; a map is kept in the order of
its keys, one entry per key. -/
inductive GoValue where
  | nil
  | bool (b : Bool)
  | float (text : Text)
  | string (s : Text)
  | slice (items : List GoValue)
  | map (entries : List (Text × GoValue))

/-- Order of Go strings (bytewise, which for valid UTF-8 is the order of the runes). -/
def textLt : Text → Text → Bool
  | _, [] => false
  | [], _ :: _ => true
  | a :: as, b :: bs => if a.toNat < b.toNat then true else if a = b then textLt as bs else false

/-- The assignment `m[key] = value` on a map kept in key order. -/
def mapSet {α : Type} (key : Text) (value : α) : List (Text × α) → List (Text × α)
  | [] => [(key, value)]
  | e :: es =>
    if key = e.1 then (key, value) :: es
    else if textLt key e.1 then (key, value) :: e :: es
    else e :: mapSet key value es

mutual
/-- The value built for `interface{}` and whether no error was saved: a number
becomes a `float64`, and a literal outside its range is an error. -/
def toInterface (lib : GoLib) : JValue → GoValue × Bool
  | JValue.null => (GoValue.nil, true)
  | JValue.bool b => (GoValue.bool b, true)
  | JValue.num lit =>
    match lib.FloatText lit with
    | some t => (GoValue.float t, true)
    | none => (GoValue.nil, false)
  | JValue.str s => (GoValue.string s, true)
  | JValue.arr items => (GoValue.slice (toSlice lib items).1, (toSlice lib items).2)
  | JValue.obj members => (GoValue.map (toMap lib [] members).1, (toMap lib [] members).2)
/-- The slice built for an array. -/
def toSlice (lib : GoLib) : List JValue → List GoValue × Bool
  | [] => ([], true)
  | v :: vs =>
    ((toInterface lib v).1 :: (toSlice lib vs).1, (toInterface lib v).2 && (toSlice lib vs).2)
/-- The map built for an object, member after member on top of `acc`: a later
member with the same key replaces the earlier one. -/
def toMap (lib : GoLib) (acc : List (Text × GoValue)) : List (Text × Text × JValue) → List (Text × GoValue) × Bool
  | [] => (acc, true)
  | m :: ms =>
    ((toMap lib (mapSet m.1 (toInterface lib m.2.2).1 acc) ms).1,
      (toInterface lib m.2.2).2 && (toMap lib (mapSet m.1 (toInterface lib m.2.2).1 acc) ms).2)
end

/-- The call `json.Unmarshal([]byte(jsonString), &result)` for a nil
`map[string]interface{}`: the map when the returned error is nil (`GoValue.nil` is the
nil map JSON null leaves), `none` when it is not. -/
def unmarshalMap (lib : GoLib) (data : Text) : Option GoValue :=
  match parseJSON data with
  | some JValue.null => some GoValue.nil
  | some (JValue.obj members) =>
    if (toMap lib [] members).2 then some (GoValue.map (toMap lib [] members).1) else none
  | _ => none

/-- Lower-case hexadecimal digit. -/
def hexDigit (n : Nat) : Char :=
  if n < 10 then Char.ofNat ('0'.toNat + n) else Char.ofNat ('a'.toNat + (n - 10))

/-- The six-character escape of a code unit below 256. -/
def escapeU00 (n : Nat) : Text :=
  ['\\', 'u', '0', '0', hexDigit (n / 16), hexDigit (n % 16)]

/-- How the encoder writes one rune of a string, HTML escaping on. -/
def encodeRune (lib : GoLib) (c : Char) : Text :=
  if c = '"' ∨ c = '\\' then ['\\', c]
  else if c = '\n' then ['\\', 'n']
  else if c = '\r' then ['\\', 'r']
  else if c = '\t' then ['\\', 't']
  else if c.toNat = 8 then (if lib.ShortEscapes then ['\\', 'b'] else escapeU00 8)
  else if c.toNat = 12 then (if lib.ShortEscapes then ['\\', 'f'] else escapeU00 12)
  else if c.toNat < 0x20 ∨ c = '<' ∨ c = '>' ∨ c = '&' then escapeU00 c.toNat
  else if c.toNat = 0x2028 then ['\\', 'u', '2', '0', '2', '8']
  else if c.toNat = 0x2029 then ['\\', 'u', '2', '0', '2', '9']
  else [c]

/-- A quoted string as the encoder writes it. -/
def encodeString (lib : GoLib) (s : Text) : Text :=
  '"' :: ((s.map (encodeRune lib)).flatten ++ ['"'])

/-- A new line followed by `depth` times the indent of two spaces. -/
def newlineIndent (depth : Nat) : Text :=
  '\n' :: List.replicate (2 * depth) ' '

mutual
/-- The text `json.MarshalIndent(v, "", "  ")` writes for a value nested `depth` deep. -/
def encodeValue (lib : GoLib) (depth : Nat) : GoValue → Text
  | GoValue.nil => ['n', 'u', 'l', 'l']
  | GoValue.bool b => if b then ['t', 'r', 'u', 'e'] else ['f', 'a', 'l', 's', 'e']
  | GoValue.float t => t
  | GoValue.string s => encodeString lib s
  | GoValue.slice [] => ['[', ']']
  | GoValue.slice (x :: xs) =>
    '[' :: (newlineIndent (depth + 1) ++ (encodeItems lib (depth + 1) (x :: xs)
      ++ (newlineIndent depth ++ [']'])))
  | GoValue.map [] => ['{', '}']
  | GoValue.map (e :: es) =>
    '{' :: (newlineIndent (depth + 1) ++ (encodeEntries lib (depth + 1) (e :: es)
      ++ (newlineIndent depth ++ ['}'])))
/-- The elements of a slice, a comma and a new line between two of them. -/
def encodeItems (lib : GoLib) (depth : Nat) : List GoValue → Text
  | [] => []
  | x :: xs =>
    encodeValue lib depth x
      ++ ((if xs.isEmpty then [] else ',' :: newlineIndent depth) ++ encodeItems lib depth xs)
/-- The entries of a map, a comma and a new line between two of them. -/
def encodeEntries (lib : GoLib) (depth : Nat) : List (Text × GoValue) → Text
  | [] => []
  | e :: es =>
    encodeString lib e.1 ++ (':' :: ' ' :: (encodeValue lib depth e.2
      ++ ((if es.isEmpty then [] else ',' :: newlineIndent depth) ++ encodeEntries lib depth es)))
end

/-- The call `json.MarshalIndent(result, "", "  ")`.  The values `Unmarshal` builds
are always encodable, so the error branch behind the call is never taken. -/
def marshalIndent (lib : GoLib) (result : GoValue) : Text :=
  encodeValue lib 0 result

/-! ## `runLpac` -/

/-- The block `if resp.Payload.Code != 0 { ... }` of `runLpac` up to its `return`:
the text of the error built from the message and the data of the record. -/
def renderError (lib : GoLib) (message data : Text) : Text :=
  let jsonString := (unmarshalString data []).1
  let dataString :=
    match unmarshalMap lib jsonString with
    | none => jsonString
    | some result => marshalIndent lib result
  "Function: ".toList ++ (message ++ ("\nData: ".toList ++ wrapText lib dataString 90))

/-- What a call of `runLpac` returns: the payload (the empty text is nil) and the
error (`none` is nil), given as the text of the error. -/
abbrev Outcome := Text × Option Text

/-- The loop `for scanner.Scan() { ... }` on the lines still to visit, with the
record `resp` as the turns before left it, followed by the check of `scanner.Err()`
and the final `return resp.Payload.Data, nil`. -/
def scanLoop (lib : GoLib) (tooLong : Bool) : List Text → LpacReturnValue → Outcome
  | [], resp => if tooLong then ([], some ErrTooLong) else (resp.Payload.Data, none)
  | line :: rest, resp =>
    if (unmarshalResp line resp).2 = false then
      scanLoop lib tooLong rest (unmarshalResp line resp).1
    else if (unmarshalResp line resp).1.Type_ ≠ "lpa".toList then
      scanLoop lib tooLong rest (unmarshalResp line resp).1
    else if (unmarshalResp line resp).1.Payload.Code ≠ 0 then
      ([], some (renderError lib (unmarshalResp line resp).1.Payload.Message
        (unmarshalResp line resp).1.Payload.Data))
    else scanLoop lib tooLong rest (unmarshalResp line resp).1

/-- The part of `runLpac` from `var resp LpacReturnValue` on: the scan of the
captured standard output. -/
def scanStdout (lib : GoLib) (stdout : Text) : Outcome :=
  scanLoop lib (scanLines stdout).2 (scanLines stdout).1 zeroResp

/-- The function `unicode.IsSpace`. -/
def isUnicodeSpace (c : Char) : Bool :=
  c = '\t' || c = '\n' || c.toNat = 0x0B || c.toNat = 0x0C || c = '\r' || c = ' '
    || c.toNat = 0x85 || c.toNat = 0xA0 || c.toNat = 0x1680
    || (0x2000 ≤ c.toNat && c.toNat ≤ 0x200A)
    || c.toNat = 0x2028 || c.toNat = 0x2029 || c.toNat = 0x202F || c.toNat = 0x205F
    || c.toNat = 0x3000

/-- The function `bytes.TrimSpace`. -/
def TrimSpace (t : Text) : Text :=
  ((t.dropWhile isUnicodeSpace).reverse.dropWhile isUnicodeSpace).reverse

/-- Whether `t` starts with `word`. -/
def startsWith : Text → Text → Bool
  | [], _ => true
  | _ :: _, [] => false
  | w :: ws, c :: cs => w = c && startsWith ws cs

/-- The function `strings.Contains`. -/
def Contains (t : Text) (word : Text) : Bool :=
  match t with
  | [] => startsWith word []
  | c :: cs => startsWith word (c :: cs) || Contains cs word

/-- What the world hands to one call of `runLpac`: the error of writing the command
line to the log file, the error of `cmd.Run()`, and the two captured streams. -/
structure Invocation where
  logErr : Option Text
  runErr : Option Text
  stdout : Text
  stderr : Text

/-- The function `runLpac` as a function of what the spawned process did. -/
def runLpac (lib : GoLib) (x : Invocation) : Outcome :=
  match x.logErr with
  | some e => ([], some e)
  | none =>
    if x.runErr.isSome ∧ (TrimSpace x.stderr).length ≠ 0 ∧ Contains x.stderr "SCard".toList = true then
      ([], some x.stderr)
    else scanStdout lib x.stdout

/-! ## Auxiliary definitions for the statements and proofs -/

/-- Pieces of text each followed by a newline, one after the other. -/
def joinNL (chunks : List Text) : Text :=
  (chunks.map (fun c => c ++ ['\n'])).flatten

/-- What the loops of `wrapText` keep true. -/
def WrapInv (lib : GoLib) (maxWidth : Nat) (P : Char → Prop) (st : WrapState) : Prop :=
  (∃ chunks : List Text, st.wrappedText = joinNL chunks ∧
      ∀ c ∈ chunks, displayWidth lib c ≤ maxWidth ∧ ∀ x ∈ c, P x) ∧
    (∀ x ∈ st.currentLine, P x) ∧
    st.currentWidth = displayWidth lib st.currentLine ∧ st.currentWidth ≤ maxWidth

/-- A library for the worked examples: runes below U+1100 are one column wide, the
others two; a float is written as its literal; Go 1.22 escapes. -/
def sampleLib : GoLib :=
  { RuneWidth := fun c => if c.toNat < 0x1100 then 1 else 2
    FloatText := fun t => some t
    ShortEscapes := true }

/-- The result discriminator. -/
def lpa : Text := "lpa".toList

/-- A record on which the scan goes on: it is not a failure record. -/
def Quiet (resp : LpacReturnValue) : Prop :=
  resp.Type_ = lpa → resp.Payload.Code = 0

/-- A line that leaves the record as it is, whatever the record holds: a line that
is no JSON, a JSON value that is no object, an object without envelope members. -/
def Inert (line : Text) : Prop :=
  ∀ resp, (unmarshalResp line resp).1 = resp

/-- A line after which the record has a type other than the result discriminator,
whatever the record held before: an envelope of another type. -/
def OtherType (line : Text) : Prop :=
  ∀ resp, (unmarshalResp line resp).1.Type_ ≠ lpa

/-- A line that leaves the data of the record as it is. -/
def KeepsData (line : Text) : Prop :=
  ∀ resp, (unmarshalResp line resp).1.Payload.Data = resp.Payload.Data

/-- A success envelope carrying `d`: the line decodes without error and sets, whatever
the record held before, the type to the result discriminator, the code to 0 and the
data to `d`. -/
def SuccessEnvelope (line d : Text) : Prop :=
  ∀ resp, (unmarshalResp line resp).2 = true ∧ (unmarshalResp line resp).1.Type_ = lpa ∧
    (unmarshalResp line resp).1.Payload.Code = 0 ∧ (unmarshalResp line resp).1.Payload.Data = d

/-- A failure envelope with message `m` and data `d`: the line decodes without error
and sets, whatever the record held before, the type to the result discriminator, the
code to a value other than 0, the message to `m` and the data to `d`. -/
def FailureEnvelope (line m d : Text) : Prop :=
  ∀ resp, (unmarshalResp line resp).2 = true ∧ (unmarshalResp line resp).1.Type_ = lpa ∧
    (unmarshalResp line resp).1.Payload.Code ≠ 0 ∧ (unmarshalResp line resp).1.Payload.Message = m ∧
    (unmarshalResp line resp).1.Payload.Data = d

/-- A line after which the scan goes on whenever it went on before. -/
def Harmless (line : Text) : Prop :=
  ∀ resp, Quiet resp → Quiet (unmarshalResp line resp).1

/-- The call gets as far as the scan of the standard output: the command line was
written to the log file and the short cut for smart-card errors is not taken. -/
def ReachesScan (x : Invocation) : Prop :=
  x.logErr = none ∧
    ¬ (x.runErr.isSome ∧ (TrimSpace x.stderr).length ≠ 0 ∧ Contains x.stderr "SCard".toList = true)

/-- The record after the lines have been decoded into it one after the other. -/
def decodeAll (lines : List Text) (resp : LpacReturnValue) : LpacReturnValue :=
  lines.foldl (fun r l => (unmarshalResp l r).1) resp

/-- A line of driver chatter that is no JSON. -/
def noiseLine : Text := "driver: ready".toList

/-- The line `{"type":"progress","payload":{"code":0,"message":"es9p","data":"step"}}`. -/
def progressLine : Text :=
  "\x7b\"type\":\"progress\",\"payload\":\x7b\"code\":0,\"message\":\"es9p\",\"data\":\"step\"\x7d\x7d".toList

/-- The line `{"type":"progress","payload":{"code":0,"message":"es9p"}}`. -/
def progressNoData : Text :=
  "\x7b\"type\":\"progress\",\"payload\":\x7b\"code\":0,\"message\":\"es9p\"\x7d\x7d".toList

/-- The line `{"type":"lpa","payload":{"code":0,"message":"success","data":[{"iccid":"123"}]}}`. -/
def successLine : Text :=
  "\x7b\"type\":\"lpa\",\"payload\":\x7b\"code\":0,\"message\":\"success\",\"data\":[\x7b\"iccid\":\"123\"\x7d]\x7d\x7d".toList

/-- The data `[{"iccid":"123"}]` of `successLine`. -/
def successData : Text := "[\x7b\"iccid\":\"123\"\x7d]".toList

/-- The line `{"type":"lpa","payload":{"code":0,"message":"success","data":"v2"}}`. -/
def successLine2 : Text :=
  "\x7b\"type\":\"lpa\",\"payload\":\x7b\"code\":0,\"message\":\"success\",\"data\":\"v2\"\x7d\x7d".toList

/-- The line `{"type":"lpa","payload":{"code":-1,"message":"es10c_enable_profile","data":"plain text"}}`. -/
def failureLine : Text :=
  "\x7b\"type\":\"lpa\",\"payload\":\x7b\"code\":-1,\"message\":\"es10c_enable_profile\",\"data\":\"plain text\"\x7d\x7d".toList

/-- The line `{"type":"lpa","payload":{"code":1}}`, a failure envelope without message and data. -/
def bareFailure : Text :=
  "\x7b\"type\":\"lpa\",\"payload\":\x7b\"code\":1\x7d\x7d".toList

/-- A call in which the log is written, the process exits with success and nothing is
written to the standard error. -/
def cleanRun (stdout : Text) : Invocation :=
  { logErr := none, runErr := none, stdout := stdout, stderr := [] }

/-- A line of `n` letters `x`: no JSON, and too long for the scanner from 65536 on. -/
def longNoise (n : Nat) : Text := List.replicate n 'x'

/-- The line `{"payload":{"code":1}}`, an object without a `type` member. -/
def untypedLine : Text := "\x7b\"payload\":\x7b\"code\":1\x7d\x7d".toList

/-- The line `{"type":"lpa","payload":{"code":0,"message":"done","data":"v3"}}`. -/
def successLine3 : Text :=
  "\x7b\"type\":\"lpa\",\"payload\":\x7b\"code\":0,\"message\":\"done\",\"data\":\"v3\"\x7d\x7d".toList

/-- The line `{"type":"lpa","payload":{"code":-1,"message":"es10b","data":{"reason":"x"}}}`,
a failure envelope whose data is a JSON object. -/
def objectFailure : Text :=
  "\x7b\"type\":\"lpa\",\"payload\":\x7b\"code\":-1,\"message\":\"es10b\",\"data\":\x7b\"reason\":\"x\"\x7d\x7d\x7d".toList

/-- The data `{"reason":"x"}` of `objectFailure`. -/
def objectData : Text := "\x7b\"reason\":\"x\"\x7d".toList

/-- The line `{"type":"lpa","payload":{"code":-1,"message":"es10b","data":"{\"foo\":\"bar\"}"}}`,
a failure envelope whose data is a JSON string that holds a JSON object. -/
def nestedFailure : Text :=
  "\x7b\"type\":\"lpa\",\"payload\":\x7b\"code\":-1,\"message\":\"es10b\",\"data\":\"\x7b\\\"foo\\\":\\\"bar\\\"\x7d\"\x7d\x7d".toList

/-- The data `"{\"foo\":\"bar\"}"` of `nestedFailure`. -/
def nestedData : Text := "\"\x7b\\\"foo\\\":\\\"bar\\\"\x7d\"".toList

/-- The JSON string whose content is the object `{"k":"a...a"}` with 100 letters `a`. -/
def wideData : Text :=
  "\"\x7b\\\"k\\\":\\\"".toList ++ (List.replicate 100 'a' ++ "\\\"\x7d\"".toList)

/-- The failure envelope with message `es10b` whose data is `wideData`. -/
def wideFailure : Text :=
  "\x7b\"type\":\"lpa\",\"payload\":\x7b\"code\":-1,\"message\":\"es10b\",\"data\":".toList
    ++ (wideData ++ "\x7d\x7d".toList)

/-- The line `{"type":"lpa","payload":{"code":-1,"message":"es10b","data":"{\"n\":1e999}"}}`. -/
def hugeNumberFailure : Text :=
  "\x7b\"type\":\"lpa\",\"payload\":\x7b\"code\":-1,\"message\":\"es10b\",\"data\":\"\x7b\\\"n\\\":1e999\x7d\"\x7d\x7d".toList

/-- The library `sampleLib` with the range error `strconv.ParseFloat` reports for `1e999`. -/
def rangeLib : GoLib :=
  { RuneWidth := sampleLib.RuneWidth
    FloatText := fun t => if t = "1e999".toList then none else some t
    ShortEscapes := true }

/-- The line `{"type":"lpa","payload":{"code":-1,"message":"es10b","data":" null"}}`: the
data is the JSON string made of a blank and the word `null`. -/
def blankNullFailure : Text :=
  "\x7b\"type\":\"lpa\",\"payload\":\x7b\"code\":-1,\"message\":\"es10b\",\"data\":\" null\"\x7d\x7d".toList

/-- Modelled from the spec: the type `PullInfo` is declared outside `cmd.go`; these are
the four fields `LpacProfileDownload` reads, the server address, the matching
identifier, the confirmation code and the device identifier, each a string that may
be empty. -/
structure PullInfo where
  SMDP : Text
  MatchID : Text
  ConfirmCode : Text
  IMEI : Text

/-- The argument list `LpacProfileDownload` builds and hands to `runLpac`: the slice
`args` after the four `if` statements. -/
def LpacProfileDownloadArgs (info : PullInfo) : List Text :=
  let args0 : List Text := ["profile".toList, "download".toList]
  let args1 := if info.SMDP ≠ [] then args0 ++ ["-s".toList, info.SMDP] else args0
  let args2 := if info.MatchID ≠ [] then args1 ++ ["-m".toList, info.MatchID] else args1
  let args3 := if info.ConfirmCode ≠ [] then args2 ++ ["-c".toList, info.ConfirmCode] else args2
  if info.IMEI ≠ [] then args3 ++ ["-i".toList, info.IMEI] else args3

/-- Modelled from the spec: the type of `ConfigInstance` is declared outside `cmd.go`;
these are the fields `runLpac` reads for the environment of the driver, the driver
interface identifier and the two debug flags. -/
structure Config where
  DriverIFID : Text
  DebugHTTP : Bool
  DebugAPDU : Bool

/-- The value `runLpac` assigns to `cmd.Env`: the literal of three entries and the two
conditional `append`s. -/
def cmdEnv (cfg : Config) : List Text :=
  let env0 : List Text :=
    ["LPAC_APDU=pcsc".toList, "LPAC_HTTP=curl".toList, "DRIVER_IFID=".toList ++ cfg.DriverIFID]
  let env1 := if cfg.DebugHTTP then env0 ++ ["LIBEUICC_DEBUG_HTTP=1".toList] else env0
  if cfg.DebugAPDU then env1 ++ ["LIBEUICC_DEBUG_APDU=1".toList] else env1

/-- A flag and its value when the value is not empty, nothing otherwise. -/
def flagPair (flag value : Text) : List Text :=
  if value = [] then [] else [flag, value]

/-- The number 1 for a field that is not empty, 0 for an empty one. -/
def fieldCount (value : Text) : Nat :=
  if value = [] then 0 else 1

/-- The wrapped line `a` is full in front of the wrapped line `b`: `b` has a first
rune, and that rune does not fit behind `a` within `maxWidth` columns. -/
def Follows (lib : GoLib) (maxWidth : Nat) (a b : Text) : Prop :=
  ∃ r t, b = r :: t ∧ displayWidth lib a + lib.RuneWidth r > maxWidth

/-- Every wrapped line but the last is full in front of the next one. -/
def Greedy (lib : GoLib) (maxWidth : Nat) : List Text → Prop
  | [] => True
  | a :: rest =>
    (match rest with
      | [] => True
      | b :: _ => Follows lib maxWidth a b) ∧ Greedy lib maxWidth rest

/-- What the inner loop of `wrapText` keeps true while it reads one line, of which
`seen` is the part read so far; `B` switches on the part that needs every rune to fit
a line of its own. -/
def LineInv (lib : GoLib) (maxWidth : Nat) (B : Prop) (seen : Text) (st : WrapState) : Prop :=
  ∃ chunks : List Text, st.wrappedText = joinNL chunks ∧
    chunks.flatten ++ st.currentLine = seen ∧
    st.currentWidth = displayWidth lib st.currentLine ∧
    Greedy lib maxWidth (chunks ++ [st.currentLine]) ∧
    (B → st.currentWidth ≤ maxWidth ∧ ∀ c ∈ chunks, c ≠ [] ∧ displayWidth lib c ≤ maxWidth)

/-! ## Lemmas on `wrapText` -/

theorem joinNL_nil : joinNL [] = [] := rfl

theorem joinNL_append (a b : List Text) : joinNL (a ++ b) = joinNL a ++ joinNL b := by
  simp [joinNL]

theorem joinNL_singleton (c : Text) : joinNL [c] = c ++ ['\n'] := by
  simp [joinNL]

theorem joinNL_cons (c : Text) (cs : List Text) : joinNL (c :: cs) = c ++ '\n' :: joinNL cs := by
  simp [joinNL]

theorem displayWidth_nil (lib : GoLib) : displayWidth lib [] = 0 := rfl

theorem displayWidth_append (lib : GoLib) (a b : Text) :
    displayWidth lib (a ++ b) = displayWidth lib a + displayWidth lib b := by
  simp [displayWidth]

theorem displayWidth_singleton (lib : GoLib) (r : Char) : displayWidth lib [r] = lib.RuneWidth r := by
  simp [displayWidth]

theorem splitNewline_ne_nil (t : Text) : splitNewline t ≠ [] := by
  induction t with
  | nil => simp [splitNewline]
  | cons c cs ih =>
    unfold splitNewline
    split
    · simp
    · split <;> simp

theorem splitNewline_append_nl (c rest : Text) (hc : ∀ x ∈ c, x ≠ '\n') :
    splitNewline (c ++ '\n' :: rest) = c :: splitNewline rest := by
  induction c with
  | nil => simp [splitNewline]
  | cons x xs ih =>
    have hx : x ≠ '\n' := hc x (by simp)
    have ih1 := ih (fun y hy => hc y (by simp [hy]))
    simp only [List.cons_append]
    rw [splitNewline, if_neg hx, ih1]

theorem splitNewline_joinNL (chunks : List Text) (h : ∀ c ∈ chunks, ∀ x ∈ c, x ≠ '\n') :
    splitNewline (joinNL chunks) = chunks ++ [[]] := by
  induction chunks with
  | nil => simp [joinNL, splitNewline]
  | cons c cs ih =>
    rw [joinNL_cons, splitNewline_append_nl c _ (h c (by simp)), ih (fun d hd => h d (by simp [hd]))]
    simp

theorem splitNewline_no_nl (t : Text) : ∀ l ∈ splitNewline t, ∀ x ∈ l, x ≠ '\n' := by
  induction t with
  | nil => simp [splitNewline]
  | cons c cs ih =>
    intro l hl
    unfold splitNewline at hl
    split at hl
    · rcases List.mem_cons.1 hl with h | h
      · subst h; simp
      · exact ih l h
    · rename_i hc
      split at hl
      · rename_i heq
        exact absurd heq (splitNewline_ne_nil cs)
      · rename_i l0 ls heq
        rcases List.mem_cons.1 hl with h | h
        · subst h
          intro x hx
          rcases List.mem_cons.1 hx with h1 | h1
          · subst h1; exact hc
          · exact ih l0 (by simp [heq]) x h1
        · exact ih l (by simp [heq, h])

theorem mem_of_mem_splitNewline (t : Text) : ∀ l ∈ splitNewline t, ∀ x ∈ l, x ∈ t := by
  induction t with
  | nil => simp [splitNewline]
  | cons c cs ih =>
    intro l hl
    unfold splitNewline at hl
    split at hl
    · rcases List.mem_cons.1 hl with h | h
      · subst h; simp
      · intro x hx; exact List.mem_cons_of_mem _ (ih l h x hx)
    · split at hl
      · rename_i heq
        exact absurd heq (splitNewline_ne_nil cs)
      · rename_i l0 ls heq
        rcases List.mem_cons.1 hl with h | h
        · subst h
          intro x hx
          rcases List.mem_cons.1 hx with h1 | h1
          · subst h1; simp
          · exact List.mem_cons_of_mem _ (ih l0 (by simp [heq]) x h1)
        · intro x hx; exact List.mem_cons_of_mem _ (ih l (by simp [heq, h]) x hx)

theorem wrapRune_inv (lib : GoLib) (maxWidth : Nat) (P : Char → Prop) (st : WrapState) (r : Char)
    (hw : lib.RuneWidth r ≤ maxWidth) (hr : P r) (h : WrapInv lib maxWidth P st) :
    WrapInv lib maxWidth P (wrapRune lib maxWidth st r) := by
  obtain ⟨⟨chunks, hch, hall⟩, hcur, hwd, hle⟩ := h
  unfold wrapRune
  by_cases hgt : st.currentWidth + lib.RuneWidth r > maxWidth
  · simp only [hgt, if_true]
    refine ⟨⟨chunks ++ [st.currentLine], ?_, ?_⟩, ?_, ?_, ?_⟩
    · simp [joinNL_append, joinNL_singleton, hch]
    · intro c hc
      rcases List.mem_append.1 hc with h1 | h1
      · exact hall c h1
      · simp at h1; subst h1; exact ⟨by omega, hcur⟩
    · simp [hr]
    · simp [displayWidth]
    · simpa using hw
  · simp only [hgt, if_false]
    refine ⟨⟨chunks, hch, hall⟩, ?_, ?_, ?_⟩
    · intro x hx
      rcases List.mem_append.1 hx with h1 | h1
      · exact hcur x h1
      · simp at h1; subst h1; exact hr
    · simp [displayWidth_append, displayWidth_singleton, hwd]
    · show st.currentWidth + lib.RuneWidth r ≤ maxWidth
      omega

theorem foldl_wrapRune_inv (lib : GoLib) (maxWidth : Nat) (P : Char → Prop) (line : Text) :
    ∀ st : WrapState, (∀ r ∈ line, lib.RuneWidth r ≤ maxWidth ∧ P r) → WrapInv lib maxWidth P st →
      WrapInv lib maxWidth P (line.foldl (wrapRune lib maxWidth) st) := by
  induction line with
  | nil => intro st _ h; exact h
  | cons r rs ih =>
    intro st hl h
    simp only [List.foldl_cons]
    exact ih _ (fun x hx => hl x (by simp [hx]))
      (wrapRune_inv lib maxWidth P st r (hl r (by simp)).1 (hl r (by simp)).2 h)

/-- What the outer loop keeps true of the builder `wrappedText`. -/
theorem wrapLine_chunks (lib : GoLib) (maxWidth : Nat) (P : Char → Prop) (acc line : Text)
    (hl : ∀ r ∈ line, lib.RuneWidth r ≤ maxWidth ∧ P r)
    (hacc : ∃ chunks : List Text, acc = joinNL chunks ∧
      ∀ c ∈ chunks, displayWidth lib c ≤ maxWidth ∧ ∀ x ∈ c, P x) :
    ∃ chunks : List Text, wrapLine lib maxWidth acc line = joinNL chunks ∧
      ∀ c ∈ chunks, displayWidth lib c ≤ maxWidth ∧ ∀ x ∈ c, P x := by
  have h0 : WrapInv lib maxWidth P { wrappedText := acc, currentLine := [], currentWidth := 0 } :=
    ⟨hacc, by simp, by simp [displayWidth], by simp⟩
  have h1 := foldl_wrapRune_inv lib maxWidth P line _ hl h0
  unfold wrapLine
  generalize line.foldl (wrapRune lib maxWidth)
    { wrappedText := acc, currentLine := [], currentWidth := 0 } = st at h1
  obtain ⟨⟨chunks, hch, hall⟩, hcur, hwd, hle⟩ := h1
  simp only []
  split
  · refine ⟨chunks ++ [st.currentLine], ?_, ?_⟩
    · rw [joinNL_append, joinNL_singleton, hch]
    · intro c hc
      rcases List.mem_append.1 hc with h2 | h2
      · exact hall c h2
      · simp at h2; subst h2; exact ⟨by omega, hcur⟩
  · exact ⟨chunks, hch, hall⟩

theorem foldl_wrapLine_chunks (lib : GoLib) (maxWidth : Nat) (P : Char → Prop) (lines : List Text) :
    ∀ acc : Text, (∀ l ∈ lines, ∀ r ∈ l, lib.RuneWidth r ≤ maxWidth ∧ P r) →
      (∃ chunks : List Text, acc = joinNL chunks ∧
        ∀ c ∈ chunks, displayWidth lib c ≤ maxWidth ∧ ∀ x ∈ c, P x) →
      ∃ chunks : List Text, lines.foldl (wrapLine lib maxWidth) acc = joinNL chunks ∧
        ∀ c ∈ chunks, displayWidth lib c ≤ maxWidth ∧ ∀ x ∈ c, P x := by
  induction lines with
  | nil => intro acc _ h; exact h
  | cons l ls ih =>
    intro acc hl hacc
    simp only [List.foldl_cons]
    exact ih _ (fun m hm => hl m (by simp [hm]))
      (wrapLine_chunks lib maxWidth P acc l (hl l (by simp)) hacc)

/-- The output of `wrapText` is a sequence of newline-terminated pieces, each within
the width and made of runes of the input. -/
theorem wrapText_chunks (lib : GoLib) (maxWidth : Nat) (P : Char → Prop) (text : Text)
    (hw : ∀ r ∈ text, lib.RuneWidth r ≤ maxWidth) (hP : ∀ r ∈ text, r ≠ '\n' → P r) :
    ∃ chunks : List Text, wrapText lib text maxWidth = joinNL chunks ∧
      ∀ c ∈ chunks, displayWidth lib c ≤ maxWidth ∧ ∀ x ∈ c, x ≠ '\n' ∧ P x := by
  unfold wrapText
  apply foldl_wrapLine_chunks lib maxWidth (fun x => x ≠ '\n' ∧ P x)
  · intro l hl r hr
    have hmem : r ∈ text := mem_of_mem_splitNewline text l hl r hr
    exact ⟨hw r hmem, splitNewline_no_nl text l hl r hr, hP r hmem (splitNewline_no_nl text l hl r hr)⟩
  · exact ⟨[], rfl, by simp⟩


theorem wrapRune_acc (lib : GoLib) (maxWidth : Nat) (acc : Text) (st : WrapState) (r : Char) :
    wrapRune lib maxWidth
        { wrappedText := acc ++ st.wrappedText, currentLine := st.currentLine, currentWidth := st.currentWidth } r =
      { wrappedText := acc ++ (wrapRune lib maxWidth st r).wrappedText
        currentLine := (wrapRune lib maxWidth st r).currentLine
        currentWidth := (wrapRune lib maxWidth st r).currentWidth } := by
  unfold wrapRune
  by_cases hgt : st.currentWidth + lib.RuneWidth r > maxWidth
  · simp [hgt]
  · simp [hgt]

theorem foldl_wrapRune_acc (lib : GoLib) (maxWidth : Nat) (acc : Text) (line : Text) :
    ∀ st : WrapState,
      line.foldl (wrapRune lib maxWidth)
          { wrappedText := acc ++ st.wrappedText, currentLine := st.currentLine, currentWidth := st.currentWidth } =
        { wrappedText := acc ++ (line.foldl (wrapRune lib maxWidth) st).wrappedText
          currentLine := (line.foldl (wrapRune lib maxWidth) st).currentLine
          currentWidth := (line.foldl (wrapRune lib maxWidth) st).currentWidth } := by
  induction line with
  | nil => intro st; rfl
  | cons r rs ih =>
    intro st
    simp only [List.foldl_cons]
    rw [wrapRune_acc, ih]

theorem wrapLine_acc (lib : GoLib) (maxWidth : Nat) (acc line : Text) :
    wrapLine lib maxWidth acc line = acc ++ wrapLine lib maxWidth [] line := by
  have h := foldl_wrapRune_acc lib maxWidth acc line
    { wrappedText := [], currentLine := [], currentWidth := 0 }
  simp only [List.append_nil] at h
  unfold wrapLine
  simp only [h]
  split <;> simp

theorem foldl_wrapLine_eq (lib : GoLib) (maxWidth : Nat) (lines : List Text) :
    ∀ acc : Text, lines.foldl (wrapLine lib maxWidth) acc =
      acc ++ (lines.map (wrapLine lib maxWidth [])).flatten := by
  induction lines with
  | nil => intro acc; simp
  | cons l ls ih =>
    intro acc
    simp only [List.foldl_cons, List.map_cons, List.flatten_cons]
    rw [ih, wrapLine_acc, List.append_assoc]

theorem splitNewline_of_no_nl (l : Text) (h : ∀ x ∈ l, x ≠ '\n') : splitNewline l = [l] := by
  induction l with
  | nil => rfl
  | cons c cs ih =>
    rw [splitNewline, if_neg (h c (by simp)), ih (fun x hx => h x (by simp [hx]))]

theorem wrapText_line (lib : GoLib) (maxWidth : Nat) (l : Text) (h : ∀ x ∈ l, x ≠ '\n') :
    wrapText lib l maxWidth = wrapLine lib maxWidth [] l := by
  unfold wrapText
  rw [splitNewline_of_no_nl l h]
  rfl

theorem wrapText_eq_flatten (lib : GoLib) (maxWidth : Nat) (text : Text) :
    wrapText lib text maxWidth =
      ((splitNewline text).map (fun l => wrapText lib l maxWidth)).flatten := by
  have h : (splitNewline text).map (fun l => wrapText lib l maxWidth) =
      (splitNewline text).map (wrapLine lib maxWidth []) := by
    apply List.map_congr_left
    intro l hl
    exact wrapText_line lib maxWidth l (splitNewline_no_nl text l hl)
  rw [h]
  unfold wrapText
  rw [foldl_wrapLine_eq]
  simp

theorem foldl_wrapRune_fits (lib : GoLib) (maxWidth : Nat) (line : Text) :
    ∀ st : WrapState, st.currentWidth + displayWidth lib line ≤ maxWidth →
      line.foldl (wrapRune lib maxWidth) st =
        { wrappedText := st.wrappedText, currentLine := st.currentLine ++ line
          currentWidth := st.currentWidth + displayWidth lib line } := by
  induction line with
  | nil => intro st _; simp [displayWidth]
  | cons r rs ih =>
    intro st h
    have hd : displayWidth lib (r :: rs) = lib.RuneWidth r + displayWidth lib rs := by
      simp [displayWidth]
    rw [hd] at h
    have hstep : wrapRune lib maxWidth st r =
        { wrappedText := st.wrappedText, currentLine := st.currentLine ++ [r]
          currentWidth := st.currentWidth + lib.RuneWidth r } := by
      unfold wrapRune
      have hn : ¬ (st.currentWidth + lib.RuneWidth r > maxWidth) := by omega
      simp [hn]
    simp only [List.foldl_cons]
    rw [hstep, ih _ (by show st.currentWidth + lib.RuneWidth r + displayWidth lib rs ≤ maxWidth; omega)]
    simp [hd, Nat.add_assoc]

theorem wrapLine_fits (lib : GoLib) (maxWidth : Nat) (line : Text)
    (h : displayWidth lib line ≤ maxWidth) :
    wrapLine lib maxWidth [] line = if line = [] then [] else line ++ ['\n'] := by
  unfold wrapLine
  rw [foldl_wrapRune_fits lib maxWidth line _ (by simpa using h)]
  cases line with
  | nil => simp
  | cons c cs => simp

theorem wrapText_fits (lib : GoLib) (maxWidth : Nat) (text : Text)
    (h : ∀ l ∈ splitNewline text, displayWidth lib l ≤ maxWidth) :
    wrapText lib text maxWidth =
      joinNL ((splitNewline text).filter (fun l => !l.isEmpty)) := by
  unfold wrapText
  rw [foldl_wrapLine_eq]
  simp only [List.nil_append]
  generalize splitNewline text = lines at h
  induction lines with
  | nil => rfl
  | cons l ls ih =>
    have hl := wrapLine_fits lib maxWidth l (h l (by simp))
    have ih1 := ih (fun m hm => h m (by simp [hm]))
    simp only [List.map_cons, List.flatten_cons, ih1, hl]
    cases l with
    | nil => simp
    | cons c cs => simp [joinNL_cons]

theorem displayWidth_of_all_eq (lib : GoLib) (c : Char) (l : Text) (h : ∀ x ∈ l, x = c) :
    displayWidth lib l = lib.RuneWidth c * l.length := by
  induction l with
  | nil => simp [displayWidth]
  | cons x xs ih =>
    have hx : x = c := h x (by simp)
    have ih1 := ih (fun y hy => h y (by simp [hy]))
    have hd : displayWidth lib (x :: xs) = lib.RuneWidth x + displayWidth lib xs := by
      simp [displayWidth]
    rw [hd, ih1, hx, List.length_cons, Nat.mul_add, Nat.mul_one, Nat.add_comm]

/-! ## The claims on `wrapText` -/

/-- C9: when every rune is at most two columns wide, every line of the text
`wrapText(text, 90)` returns has a display width of at most 90 columns; and when the
text is one line of 100 glyphs of width 2, every line of the result has at most 45
glyphs. -/
theorem wrapText_width_bound (lib : GoLib) (text : Text) (h : ∀ r, lib.RuneWidth r ≤ 2) :
    (∀ l ∈ splitNewline (wrapText lib text 90), displayWidth lib l ≤ 90) ∧
      (∀ c, lib.RuneWidth c = 2 →
        ∀ l ∈ splitNewline (wrapText lib (List.replicate 100 c) 90), l.length ≤ 45) := by
  constructor
  · intro l hl
    obtain ⟨chunks, hch, hall⟩ := wrapText_chunks lib 90 (fun _ => True) text
      (fun r _ => Nat.le_trans (h r) (by decide)) (fun _ _ _ => trivial)
    rw [hch, splitNewline_joinNL chunks (fun c hc x hx => ((hall c hc).2 x hx).1)] at hl
    rcases List.mem_append.1 hl with h1 | h1
    · exact (hall l h1).1
    · simp at h1; subst h1; simp [displayWidth]
  · intro c hc l hl
    obtain ⟨chunks, hch, hall⟩ := wrapText_chunks lib 90 (fun x => x = c) (List.replicate 100 c)
      (fun r _ => Nat.le_trans (h r) (by decide)) (fun r hr _ => (List.mem_replicate.1 hr).2)
    rw [hch, splitNewline_joinNL chunks (fun d hd x hx => ((hall d hd).2 x hx).1)] at hl
    rcases List.mem_append.1 hl with h1 | h1
    · have hw := (hall l h1).1
      rw [displayWidth_of_all_eq lib c l (fun x hx => ((hall l h1).2 x hx).2), hc] at hw
      omega
    · simp at h1; subst h1; simp

theorem sampleLib_width (r : Char) : sampleLib.RuneWidth r ≤ 2 := by
  unfold sampleLib
  simp only []
  split <;> decide

/-- C9 at a text that mixes one-column and two-column glyphs. -/
theorem wrapText_width_bound_witness :
    (∀ r, sampleLib.RuneWidth r ≤ 2) ∧
      ((∀ l ∈ splitNewline (wrapText sampleLib "ab\n中文中文".toList 90), displayWidth sampleLib l ≤ 90) ∧
        (∀ c, sampleLib.RuneWidth c = 2 →
          ∀ l ∈ splitNewline (wrapText sampleLib (List.replicate 100 c) 90), l.length ≤ 45)) :=
  ⟨sampleLib_width, wrapText_width_bound sampleLib "ab\n中文中文".toList sampleLib_width⟩

/-- C10, as the code has it: the result of `wrapText(text, 90)` is the concatenation,
in order, of the wrapped forms of the lines of the text; an empty line contributes
nothing, so its newline is not kept; and a text whose lines are all at most 90 columns
wide comes out as its non-empty lines, in order, each followed by a newline. -/
theorem wrapText_hard_breaks (lib : GoLib) (text : Text) :
    wrapText lib text 90 = ((splitNewline text).map (fun l => wrapText lib l 90)).flatten ∧
      wrapText lib [] 90 = [] ∧
      ((∀ l ∈ splitNewline text, displayWidth lib l ≤ 90) →
        wrapText lib text 90 = joinNL ((splitNewline text).filter (fun l => !l.isEmpty))) :=
  ⟨wrapText_eq_flatten lib 90 text, rfl, wrapText_fits lib 90 text⟩

/-- C10, as the code has it, at a text of two paragraphs with an empty line between. -/
theorem wrapText_hard_breaks_witness :
    (∀ l ∈ splitNewline "one\n\ntwo".toList, displayWidth sampleLib l ≤ 90) ∧
      wrapText sampleLib "one\n\ntwo".toList 90 = joinNL ["one".toList, "two".toList] :=
  ⟨by decide, (wrapText_hard_breaks sampleLib "one\n\ntwo".toList).2.2 (by decide)⟩

/-- C10 fails as stated: the text `a`, empty line, `b` has three lines, each at most
90 columns wide, and two newlines; the result has the two lines `a` and `b` and no
empty line between them, so the second newline of the input is no line break of the
result and the sequence of lines is not kept. -/
theorem wrapText_drops_empty_line :
    (∀ l ∈ splitNewline "a\n\nb".toList, displayWidth sampleLib l ≤ 90) ∧
      splitNewline "a\n\nb".toList = ["a".toList, [], "b".toList] ∧
      wrapText sampleLib "a\n\nb".toList 90 = "a\nb\n".toList ∧
      splitNewline (wrapText sampleLib "a\n\nb".toList 90) = ["a".toList, "b".toList, []] := by
  decide


/-! ## Lemmas on the scan -/

theorem runLpac_of_reachesScan (lib : GoLib) (x : Invocation) (h : ReachesScan x) :
    runLpac lib x = scanStdout lib x.stdout := by
  unfold runLpac
  rw [h.1]
  simp only []
  rw [if_neg h.2]

theorem scanStdout_of_lines (lib : GoLib) (stdout : Text) (lines : List Text) (flag : Bool)
    (h : scanLines stdout = (lines, flag)) :
    scanStdout lib stdout = scanLoop lib flag lines zeroResp := by
  unfold scanStdout
  rw [h]

theorem quiet_zeroResp : Quiet zeroResp := by
  intro h
  rfl

theorem harmless_of_inert (l : Text) (h : Inert l) : Harmless l := by
  intro resp hq
  rw [h resp]
  exact hq

theorem harmless_of_otherType (l : Text) (h : OtherType l) : Harmless l := by
  intro resp _ ht
  exact absurd ht (h resp)

theorem harmless_of_success (l d : Text) (h : SuccessEnvelope l d) : Harmless l := by
  intro resp _ _
  exact (h resp).2.2.1

theorem inert_of_syntax_error (l : Text) (h : parseJSON l = none) : Inert l := by
  intro resp
  unfold unmarshalResp
  rw [h]

theorem inert_of_not_object (l : Text) (v : JValue) (h : parseJSON l = some v)
    (hv : ∀ ms, v ≠ JValue.obj ms) : Inert l := by
  intro resp
  unfold unmarshalResp
  rw [h]
  cases v with
  | obj ms => exact absurd rfl (hv ms)
  | null => rfl
  | bool b => rfl
  | num lit => rfl
  | str s => rfl
  | arr items => rfl

theorem foldl_storeRespMember_skip (ms : List (Text × Text × JValue))
    (hm : ∀ m ∈ ms, fieldMatch "type".toList m.1 = false ∧ fieldMatch "payload".toList m.1 = false) :
    ∀ st : LpacReturnValue × Bool, ms.foldl storeRespMember st = st := by
  induction ms with
  | nil => intro st; rfl
  | cons m rest ih =>
    intro st
    have h1 : storeRespMember st m = st := by
      have ht := (hm m (by simp)).1
      have hp := (hm m (by simp)).2
      unfold storeRespMember
      rw [if_neg (by rw [ht]; decide), if_neg (by rw [hp]; decide)]
    simp only [List.foldl_cons]
    rw [h1]
    exact ih (fun x hx => hm x (by simp [hx])) st

theorem inert_of_no_member (l : Text) (ms : List (Text × Text × JValue))
    (h : parseJSON l = some (JValue.obj ms))
    (hm : ∀ m ∈ ms, fieldMatch "type".toList m.1 = false ∧ fieldMatch "payload".toList m.1 = false) :
    Inert l := by
  intro resp
  unfold unmarshalResp
  rw [h]
  simp only [storeResp]
  rw [foldl_storeRespMember_skip ms hm]

/-- Every line of the shape the driver prints for a result of code 0, an object with
the members `type` (the string `lpa`) and `payload`, the latter an object with the
members `code` (the number 0), `message` (a string) and `data` (any value, of source
text `d`), is a success envelope carrying `d`. -/
theorem successEnvelope_of_members (line rawT rawP rawC rawM d msg : Text) (v : JValue)
    (h : parseJSON line = some (JValue.obj
      [("type".toList, rawT, JValue.str "lpa".toList),
        ("payload".toList, rawP, JValue.obj
          [("code".toList, rawC, JValue.num "0".toList),
            ("message".toList, rawM, JValue.str msg),
            ("data".toList, d, v)])])) :
    SuccessEnvelope line d := by
  intro resp
  unfold unmarshalResp
  rw [h]
  exact ⟨rfl, rfl, rfl, rfl⟩

/-- Every line of the shape the driver prints for a failure, with a code literal that
reads as an integer other than 0, is a failure envelope with its message and data. -/
theorem failureEnvelope_of_members (line rawT rawP rawC rawM d msg lit : Text) (v : JValue)
    (n : Int) (hlit : parseInt64 lit = some n) (hn : n ≠ 0)
    (h : parseJSON line = some (JValue.obj
      [("type".toList, rawT, JValue.str "lpa".toList),
        ("payload".toList, rawP, JValue.obj
          [("code".toList, rawC, JValue.num lit),
            ("message".toList, rawM, JValue.str msg),
            ("data".toList, d, v)])])) :
    FailureEnvelope line msg d := by
  intro resp
  unfold unmarshalResp
  rw [h]
  have hcode : (storeResp (JValue.obj
      [("type".toList, rawT, JValue.str "lpa".toList),
        ("payload".toList, rawP, JValue.obj
          [("code".toList, rawC, JValue.num lit),
            ("message".toList, rawM, JValue.str msg),
            ("data".toList, d, v)])]) resp).1.Payload.Code = (storeInt (JValue.num lit) resp.Payload.Code).1 := rfl
  have hok : (storeResp (JValue.obj
      [("type".toList, rawT, JValue.str "lpa".toList),
        ("payload".toList, rawP, JValue.obj
          [("code".toList, rawC, JValue.num lit),
            ("message".toList, rawM, JValue.str msg),
            ("data".toList, d, v)])]) resp).2 = (storeInt (JValue.num lit) resp.Payload.Code).2 := by
    simp [storeResp, storeRespMember, storePayload, storePayloadMember, fieldMatch, foldName,
      foldRune, storeString]
  have hint : storeInt (JValue.num lit) resp.Payload.Code = (n, true) := by
    simp [storeInt, hlit]
  refine ⟨by rw [hok, hint], rfl, by rw [hcode, hint]; exact hn, rfl, rfl⟩

theorem scanLoop_step_quiet (lib : GoLib) (tooLong : Bool) (line : Text) (rest : List Text)
    (resp : LpacReturnValue) (h : Quiet (unmarshalResp line resp).1) :
    scanLoop lib tooLong (line :: rest) resp = scanLoop lib tooLong rest (unmarshalResp line resp).1 := by
  rw [scanLoop]
  by_cases h1 : (unmarshalResp line resp).2 = false
  · rw [if_pos h1]
  · rw [if_neg h1]
    by_cases h2 : (unmarshalResp line resp).1.Type_ ≠ "lpa".toList
    · rw [if_pos h2]
    · rw [if_neg h2]
      have h3 : (unmarshalResp line resp).1.Payload.Code = 0 := h (not_not.1 h2)
      rw [if_neg (not_not.2 h3)]

theorem scanLoop_harmless (lib : GoLib) (tooLong : Bool) (pre : List Text) :
    ∀ (rest : List Text) (resp : LpacReturnValue), Quiet resp → (∀ l ∈ pre, Harmless l) →
      scanLoop lib tooLong (pre ++ rest) resp = scanLoop lib tooLong rest (decodeAll pre resp) ∧
        Quiet (decodeAll pre resp) := by
  induction pre with
  | nil => intro rest resp hq _; exact ⟨rfl, hq⟩
  | cons l ls ih =>
    intro rest resp hq hl
    have hq1 : Quiet (unmarshalResp l resp).1 := hl l (by simp) resp hq
    have h := ih rest (unmarshalResp l resp).1 hq1 (fun m hm => hl m (by simp [hm]))
    simp only [List.cons_append]
    rw [scanLoop_step_quiet lib tooLong l (ls ++ rest) resp hq1]
    exact h

theorem decodeAll_inert (post : List Text) (h : ∀ l ∈ post, Inert l) :
    ∀ resp, decodeAll post resp = resp := by
  induction post with
  | nil => intro resp; rfl
  | cons l ls ih =>
    intro resp
    unfold decodeAll
    simp only [List.foldl_cons]
    rw [h l (by simp) resp]
    exact ih (fun m hm => h m (by simp [hm])) resp

/-- The scan of lines that never make a failure record, ended by a success envelope
and lines that change nothing, returns the data of that envelope. -/
theorem scanLoop_success (lib : GoLib) (pre post : List Text) (line d : Text)
    (resp : LpacReturnValue) (hq : Quiet resp) (hpre : ∀ l ∈ pre, Harmless l)
    (hline : SuccessEnvelope line d) (hpost : ∀ l ∈ post, Inert l) :
    scanLoop lib false (pre ++ line :: post) resp = (d, none) := by
  have h1 := scanLoop_harmless lib false pre (line :: post) resp hq hpre
  rw [h1.1]
  have hq2 : Quiet (unmarshalResp line (decodeAll pre resp)).1 :=
    harmless_of_success line d hline _ h1.2
  rw [scanLoop_step_quiet lib false line post _ hq2]
  have h3 := scanLoop_harmless lib false post [] _ hq2 (fun l hl => harmless_of_inert l (hpost l hl))
  rw [List.append_nil] at h3
  rw [h3.1, decodeAll_inert post hpost, scanLoop]
  simp [(hline (decodeAll pre resp)).2.2.2]

theorem decodeAll_keepsData (post : List Text) (h : ∀ l ∈ post, KeepsData l) :
    ∀ resp, (decodeAll post resp).Payload.Data = resp.Payload.Data := by
  induction post with
  | nil => intro resp; rfl
  | cons l ls ih =>
    intro resp
    have hstep : decodeAll (l :: ls) resp = decodeAll ls (unmarshalResp l resp).1 := rfl
    rw [hstep, ih (fun m hm => h m (by simp [hm])) (unmarshalResp l resp).1]
    exact h l (by simp) resp

theorem keepsData_of_inert (l : Text) (h : Inert l) : KeepsData l := by
  intro resp
  rw [h resp]

/-- The lines allowed behind the result envelope, those that leave the record
untouched and the envelopes of another type without a data member, never make a
failure record and leave the data of the record as it is. -/
theorem tail_classes (post : List Text)
    (hpost : ∀ l ∈ post, Inert l ∨ (OtherType l ∧ KeepsData l)) :
    (∀ l ∈ post, Harmless l) ∧ (∀ l ∈ post, KeepsData l) := by
  constructor
  · intro l hl
    rcases hpost l hl with h | h
    · exact harmless_of_inert l h
    · exact harmless_of_otherType l h.1
  · intro l hl
    rcases hpost l hl with h | h
    · exact keepsData_of_inert l h
    · exact h.2

/-- The scan of lines that never make a failure record, then a success envelope, then
lines that never make a failure record and leave the data as it is, returns the data
of that envelope. -/
theorem scanLoop_success_tail (lib : GoLib) (pre post : List Text) (line d : Text)
    (resp : LpacReturnValue) (hq : Quiet resp) (hpre : ∀ l ∈ pre, Harmless l)
    (hline : SuccessEnvelope line d) (hpost : ∀ l ∈ post, Harmless l)
    (hkeep : ∀ l ∈ post, KeepsData l) :
    scanLoop lib false (pre ++ line :: post) resp = (d, none) := by
  have h1 := scanLoop_harmless lib false pre (line :: post) resp hq hpre
  rw [h1.1]
  have hq2 : Quiet (unmarshalResp line (decodeAll pre resp)).1 :=
    harmless_of_success line d hline _ h1.2
  rw [scanLoop_step_quiet lib false line post _ hq2]
  have h3 := scanLoop_harmless lib false post [] _ hq2 hpost
  rw [List.append_nil] at h3
  rw [h3.1, scanLoop, decodeAll_keepsData post hkeep, (hline (decodeAll pre resp)).2.2.2]
  simp

/-- The scan of lines that never make a failure record, followed by a failure
envelope, returns the error rendered from that envelope. -/
theorem scanLoop_failure (lib : GoLib) (tooLong : Bool) (pre post : List Text) (line m d : Text)
    (resp : LpacReturnValue) (hq : Quiet resp) (hpre : ∀ l ∈ pre, Harmless l)
    (hline : FailureEnvelope line m d) :
    scanLoop lib tooLong (pre ++ line :: post) resp = ([], some (renderError lib m d)) := by
  have h1 := scanLoop_harmless lib tooLong pre (line :: post) resp hq hpre
  rw [h1.1, scanLoop]
  obtain ⟨hok, htype, hcode, hmsg, hdata⟩ := hline (decodeAll pre resp)
  have htype1 : (unmarshalResp line (decodeAll pre resp)).1.Type_ = "lpa".toList := htype
  rw [if_neg (by simp [hok]), if_neg (not_not.2 htype1), if_pos hcode, hmsg, hdata]


theorem reachesScan_cleanRun (stdout : Text) : ReachesScan (cleanRun stdout) :=
  ⟨rfl, fun h => by simp [cleanRun] at h⟩

theorem cleanRun_stdout (stdout : Text) : (cleanRun stdout).stdout = stdout := rfl

theorem inert_noiseLine : Inert noiseLine := inert_of_syntax_error noiseLine rfl

theorem otherType_progressLine : OtherType progressLine := by
  intro resp
  have h : (unmarshalResp progressLine resp).1.Type_ = "progress".toList := rfl
  rw [h]
  decide

theorem otherType_progressNoData : OtherType progressNoData := by
  intro resp
  have h : (unmarshalResp progressNoData resp).1.Type_ = "progress".toList := rfl
  rw [h]
  decide

theorem keepsData_progressNoData : KeepsData progressNoData := fun _ => rfl

theorem success_successLine : SuccessEnvelope successLine successData :=
  fun _ => ⟨rfl, rfl, rfl, rfl⟩

theorem success_successLine2 : SuccessEnvelope successLine2 "\"v2\"".toList :=
  fun _ => ⟨rfl, rfl, rfl, rfl⟩

theorem failure_failureLine :
    FailureEnvelope failureLine "es10c_enable_profile".toList "\"plain text\"".toList :=
  fun resp => ⟨rfl, rfl,
    (by
      have h : (unmarshalResp failureLine resp).1.Payload.Code = -1 := rfl
      rw [h]
      decide),
    rfl, rfl⟩


theorem longNoise_no_nl (n : Nat) : ∀ c ∈ longNoise n, c ≠ '\n' := by
  intro c hc
  rw [(List.mem_replicate.1 hc).2]
  decide

theorem utf8Len_longNoise (n : Nat) : utf8Len (longNoise n) = n := by
  induction n with
  | zero => rfl
  | succ k ih =>
    have h : utf8Len (longNoise (k + 1)) = 'x'.utf8Size + utf8Len (longNoise k) := by
      simp [utf8Len, longNoise, List.replicate_succ]
    rw [h, ih]
    have hx : 'x'.utf8Size = 1 := by decide
    omega

theorem parseJSON_longNoise (n : Nat) : parseJSON (longNoise (n + 1)) = none := by
  have h : parseValue ((longNoise (n + 1)).length + 1) 0 (skipSpace (longNoise (n + 1))) = none := by
    simp [longNoise, List.replicate_succ, skipSpace, isSpace, parseValue, scanNumber, scanInt, isDigit]
  unfold parseJSON
  rw [h]

/-- A line that fills the buffer of the scanner stops the scan before any line is
delivered. -/
theorem scanLines_longNoise_first (n : Nat) (rest : Text) (hn : MaxScanTokenSize ≤ n) :
    scanLines (longNoise n ++ '\n' :: rest) = ([], true) := by
  unfold scanLines
  simp only []
  rw [splitNewline_append_nl (longNoise n) rest (longNoise_no_nl n)]
  have hlen : utf8Len (longNoise n) ≥ MaxScanTokenSize := by rw [utf8Len_longNoise]; exact hn
  cases hs : splitNewline rest with
  | nil => exact absurd hs (splitNewline_ne_nil rest)
  | cons p ps =>
    have hd : (longNoise n :: p :: ps).dropLast = longNoise n :: (p :: ps).dropLast := rfl
    split
    · rw [hd, scanTokens, if_pos hlen]
    · rw [scanTokens, if_pos hlen]

/-- A line that fills the buffer of the scanner, alone on the output, stops the scan. -/
theorem scanLines_longNoise_alone (n : Nat) (hn : MaxScanTokenSize ≤ n) :
    scanLines (longNoise n) = ([], true) := by
  have hlen : utf8Len (longNoise n) ≥ MaxScanTokenSize := by rw [utf8Len_longNoise]; exact hn
  have hne : longNoise n ≠ [] := by
    intro h
    rw [h] at hlen
    exact absurd hlen (by decide)
  unfold scanLines
  simp only []
  rw [splitNewline_of_no_nl (longNoise n) (longNoise_no_nl n)]
  have h1 : [longNoise n].getLast? ≠ some [] := by
    simp
    exact hne
  rw [if_neg h1, scanTokens, if_pos hlen]

/-- A short line is delivered, and the line that fills the buffer behind it stops
the scan. -/
theorem scanLines_longNoise_second (n : Nat) (l : Text) (hl : ∀ c ∈ l, c ≠ '\n')
    (hshort : utf8Len l < MaxScanTokenSize) (hcr : dropCR l = l) (hn : MaxScanTokenSize ≤ n) :
    scanLines (l ++ '\n' :: longNoise n) = ([l], true) := by
  have hlen : utf8Len (longNoise n) ≥ MaxScanTokenSize := by rw [utf8Len_longNoise]; exact hn
  have hne : longNoise n ≠ [] := by
    intro h
    rw [h] at hlen
    exact absurd hlen (by decide)
  unfold scanLines
  simp only []
  rw [splitNewline_append_nl l _ hl, splitNewline_of_no_nl (longNoise n) (longNoise_no_nl n)]
  have h1 : [l, longNoise n].getLast? ≠ some [] := by
    simp
    exact hne
  rw [if_neg h1, scanTokens, if_neg (by omega), scanTokens, if_pos hlen, hcr]

/-! ## The claims on the scan of the standard output -/

/-- C1, as the code has it: when no line reaches the 64 KiB limit of the scanner, the
lines before the envelope each leave the record untouched (no JSON, a JSON value that
is no object, an object without envelope members) or leave it with a type other than
`lpa` (envelopes of other types), exactly one line is a success envelope that sets the
type `lpa`, the code 0 and the data `d`, and the lines behind it each leave the record
untouched or are envelopes of another type that leave the data untouched (they carry
no data member), `runLpac` returns `d` and no error. -/
theorem runLpac_envelope_filtering (lib : GoLib) (x : Invocation) (pre post : List Text)
    (line d : Text) (hx : ReachesScan x)
    (hlines : scanLines x.stdout = (pre ++ line :: post, false))
    (hpre : ∀ l ∈ pre, Inert l ∨ OtherType l)
    (hline : SuccessEnvelope line d)
    (hpost : ∀ l ∈ post, Inert l ∨ (OtherType l ∧ KeepsData l)) :
    runLpac lib x = (d, none) := by
  rw [runLpac_of_reachesScan lib x hx]
  unfold scanStdout
  rw [hlines]
  apply scanLoop_success_tail lib pre post line d zeroResp quiet_zeroResp _ hline
    (tail_classes post hpost).1 (tail_classes post hpost).2
  intro l hl
  rcases hpre l hl with h | h
  · exact harmless_of_inert l h
  · exact harmless_of_otherType l h

/-- C1, as the code has it, on noise, a progress envelope, the result envelope, noise
again and a progress envelope without data. -/
theorem runLpac_envelope_filtering_witness :
    scanLines (cleanRun "driver: ready\n\x7b\"type\":\"progress\",\"payload\":\x7b\"code\":0,\"message\":\"es9p\",\"data\":\"step\"\x7d\x7d\r\n\x7b\"type\":\"lpa\",\"payload\":\x7b\"code\":0,\"message\":\"success\",\"data\":[\x7b\"iccid\":\"123\"\x7d]\x7d\x7d\ndriver: ready\n\x7b\"type\":\"progress\",\"payload\":\x7b\"code\":0,\"message\":\"es9p\"\x7d\x7d\n".toList).stdout
        = ([noiseLine, progressLine] ++ successLine :: [noiseLine, progressNoData], false) ∧
      runLpac sampleLib (cleanRun "driver: ready\n\x7b\"type\":\"progress\",\"payload\":\x7b\"code\":0,\"message\":\"es9p\",\"data\":\"step\"\x7d\x7d\r\n\x7b\"type\":\"lpa\",\"payload\":\x7b\"code\":0,\"message\":\"success\",\"data\":[\x7b\"iccid\":\"123\"\x7d]\x7d\x7d\ndriver: ready\n\x7b\"type\":\"progress\",\"payload\":\x7b\"code\":0,\"message\":\"es9p\"\x7d\x7d\n".toList)
        = (successData, none) :=
  ⟨by decide,
    runLpac_envelope_filtering sampleLib _ [noiseLine, progressLine] [noiseLine, progressNoData]
      successLine successData
      (reachesScan_cleanRun _) (by decide)
      (by
        intro l hl
        simp only [List.mem_cons, List.mem_singleton, List.not_mem_nil, or_false] at hl
        rcases hl with h | h
        · exact Or.inl (h ▸ inert_noiseLine)
        · exact Or.inr (h ▸ otherType_progressLine))
      success_successLine
      (by
        intro l hl
        simp only [List.mem_cons, List.mem_singleton, List.not_mem_nil, or_false] at hl
        rcases hl with h | h
        · exact Or.inl (h ▸ inert_noiseLine)
        · exact Or.inr ⟨h ▸ otherType_progressNoData, h ▸ keepsData_progressNoData⟩)⟩

/-- C1 fails as stated.  First, an envelope of another type that carries a data member,
behind the result envelope, overwrites the data the scan returns: the stream of
`successLine` and `progressLine` yields the data of the progress envelope.  Second, a line of noise of
65536 bytes in front of the result envelope stops the scanner, and the call returns
the error of the scanner instead of the data. -/
theorem runLpac_envelope_filtering_fails :
    (SuccessEnvelope successLine successData ∧ OtherType progressLine ∧
        runLpac sampleLib (cleanRun (successLine ++ '\n' :: progressLine)) = ("\"step\"".toList, none) ∧
        "\"step\"".toList ≠ successData) ∧
      (parseJSON (longNoise 65536) = none ∧
        runLpac sampleLib (cleanRun (longNoise 65536 ++ '\n' :: successLine)) = ([], some ErrTooLong)) := by
  refine ⟨⟨success_successLine, otherType_progressLine, by decide, by decide⟩, parseJSON_longNoise 65535, ?_⟩
  rw [runLpac_of_reachesScan sampleLib _ (reachesScan_cleanRun _), cleanRun_stdout,
    scanStdout_of_lines sampleLib _ [] true
      (scanLines_longNoise_first 65536 successLine (by decide))]
  rfl


theorem harmless_of_classes (pre : List Text)
    (hpre : ∀ l ∈ pre, Inert l ∨ OtherType l ∨ ∃ d, SuccessEnvelope l d) :
    ∀ l ∈ pre, Harmless l := by
  intro l hl
  rcases hpre l hl with h | h | ⟨d, h⟩
  · exact harmless_of_inert l h
  · exact harmless_of_otherType l h
  · exact harmless_of_success l d h

/-- C2, as the code has it: when the lines the scanner delivers before a failure
envelope each leave the record untouched, leave it with a type other than `lpa`, or
are success envelopes, and the failure envelope sets the type `lpa`, a code other than
0, the message `m` and the data `d`, then `runLpac` returns a nil payload and the error
rendered from `m` and `d`, whatever lines follow and whether or not a later line stops
the scanner. -/
theorem runLpac_failure_short_circuits (lib : GoLib) (x : Invocation) (pre post : List Text)
    (line m d : Text) (flag : Bool) (hx : ReachesScan x)
    (hlines : scanLines x.stdout = (pre ++ line :: post, flag))
    (hpre : ∀ l ∈ pre, Inert l ∨ OtherType l ∨ ∃ d1, SuccessEnvelope l d1)
    (hline : FailureEnvelope line m d) :
    runLpac lib x = ([], some (renderError lib m d)) := by
  rw [runLpac_of_reachesScan lib x hx, scanStdout_of_lines lib x.stdout _ flag hlines]
  exact scanLoop_failure lib flag pre post line m d zeroResp quiet_zeroResp
    (harmless_of_classes pre hpre) hline

/-- C2, as the code has it, on a success envelope, a failure envelope and a second
success envelope behind it. -/
theorem runLpac_failure_short_circuits_witness :
    FailureEnvelope failureLine "es10c_enable_profile".toList "\"plain text\"".toList ∧
      runLpac sampleLib (cleanRun (successLine ++ '\n' :: (failureLine ++ '\n' :: successLine2)))
        = ([], some "Function: es10c_enable_profile\nData: plain text\n".toList) :=
  ⟨failure_failureLine,
    runLpac_failure_short_circuits sampleLib _ [successLine] [successLine2] failureLine
      "es10c_enable_profile".toList "\"plain text\"".toList false
      (reachesScan_cleanRun _) (by decide)
      (by
        intro l hl
        simp only [List.mem_singleton] at hl
        exact Or.inr (Or.inr ⟨successData, hl ▸ success_successLine⟩))
      failure_failureLine⟩

/-- C2 fails as stated.  First, a line of noise of 65536 bytes in front of the failure
envelope stops the scanner, and the call returns the error of the scanner instead of
the rendered error.  Second, the failure envelope `bareFailure` has neither message
nor data and alone yields the error with both parts empty, but behind the success
envelope `successLine2` it yields an error rendered from the message and the data of
that success envelope. -/
theorem runLpac_failure_short_circuits_fails :
    (FailureEnvelope failureLine "es10c_enable_profile".toList "\"plain text\"".toList ∧
        runLpac sampleLib (cleanRun (longNoise 65536 ++ '\n' :: failureLine)) = ([], some ErrTooLong)) ∧
      (runLpac sampleLib (cleanRun bareFailure) = ([], some "Function: \nData: ".toList) ∧
        SuccessEnvelope successLine2 "\"v2\"".toList ∧
        runLpac sampleLib (cleanRun (successLine2 ++ '\n' :: bareFailure))
          = ([], some "Function: success\nData: v2\n".toList)) := by
  refine ⟨⟨failure_failureLine, ?_⟩, by decide, success_successLine2, by decide⟩
  rw [runLpac_of_reachesScan sampleLib _ (reachesScan_cleanRun _), cleanRun_stdout,
    scanStdout_of_lines sampleLib _ [] true
      (scanLines_longNoise_first 65536 failureLine (by decide))]
  rfl

/-- C3, as the code has it: when no line reaches the 64 KiB limit of the scanner, two
success envelopes with data `d1` then `d2` make `runLpac` return `d2` and no error;
more generally, when the lines before a success envelope each leave the record
untouched, leave it with a type other than `lpa` (envelopes of other types) or are
success envelopes, and the lines behind it each leave the record untouched or are
envelopes of another type that leave the data untouched (they carry no data member),
`runLpac` returns the data of that last success envelope and no error. -/
theorem runLpac_last_success_wins (lib : GoLib) (x : Invocation) (hx : ReachesScan x) :
    (∀ l1 l2 d1 d2 : Text, scanLines x.stdout = ([l1, l2], false) →
        SuccessEnvelope l1 d1 → SuccessEnvelope l2 d2 → runLpac lib x = (d2, none)) ∧
      (∀ (pre post : List Text) (line d : Text),
        scanLines x.stdout = (pre ++ line :: post, false) →
        (∀ l ∈ pre, Inert l ∨ OtherType l ∨ ∃ d1, SuccessEnvelope l d1) →
        SuccessEnvelope line d → (∀ l ∈ post, Inert l ∨ (OtherType l ∧ KeepsData l)) →
        runLpac lib x = (d, none)) := by
  constructor
  · intro l1 l2 d1 d2 hlines h1 h2
    rw [runLpac_of_reachesScan lib x hx, scanStdout_of_lines lib x.stdout _ false hlines]
    apply scanLoop_success_tail lib [l1] [] l2 d2 zeroResp quiet_zeroResp _ h2 (by simp) (by simp)
    intro l hl
    simp only [List.mem_singleton] at hl
    exact hl ▸ harmless_of_success l1 d1 h1
  · intro pre post line d hlines hpre hline hpost
    rw [runLpac_of_reachesScan lib x hx, scanStdout_of_lines lib x.stdout _ false hlines]
    apply scanLoop_success_tail lib pre post line d zeroResp quiet_zeroResp _ hline
      (tail_classes post hpost).1 (tail_classes post hpost).2
    intro l hl
    rcases hpre l hl with h | h | ⟨d1, h⟩
    · exact harmless_of_inert l h
    · exact harmless_of_otherType l h
    · exact harmless_of_success l d1 h

/-- C3, as the code has it, on two success envelopes in sequence, and on a progress
envelope, two success envelopes and a progress envelope without data. -/
theorem runLpac_last_success_wins_witness :
    (ReachesScan (cleanRun (successLine ++ '\n' :: successLine2)) ∧
        SuccessEnvelope successLine successData ∧ SuccessEnvelope successLine2 "\"v2\"".toList ∧
        runLpac sampleLib (cleanRun (successLine ++ '\n' :: successLine2)) = ("\"v2\"".toList, none)) ∧
      (scanLines (cleanRun (progressLine ++ '\n' :: (successLine ++ '\n' :: (successLine2 ++
            '\n' :: progressNoData)))).stdout
          = ([progressLine, successLine] ++ successLine2 :: [progressNoData], false) ∧
        OtherType progressLine ∧ OtherType progressNoData ∧ KeepsData progressNoData ∧
        runLpac sampleLib (cleanRun (progressLine ++ '\n' :: (successLine ++ '\n' :: (successLine2 ++
            '\n' :: progressNoData)))) = ("\"v2\"".toList, none)) :=
  ⟨⟨reachesScan_cleanRun _, success_successLine, success_successLine2,
      (runLpac_last_success_wins sampleLib (cleanRun (successLine ++ '\n' :: successLine2))
        (reachesScan_cleanRun _)).1 successLine successLine2 successData "\"v2\"".toList
        (by decide) success_successLine success_successLine2⟩,
    by decide, otherType_progressLine, otherType_progressNoData, keepsData_progressNoData,
    (runLpac_last_success_wins sampleLib _ (reachesScan_cleanRun _)).2
      [progressLine, successLine] [progressNoData] successLine2 "\"v2\"".toList (by decide)
      (by
        intro l hl
        simp only [List.mem_cons, List.mem_singleton, List.not_mem_nil, or_false] at hl
        rcases hl with h | h
        · exact Or.inr (Or.inl (h ▸ otherType_progressLine))
        · exact Or.inr (Or.inr ⟨successData, h ▸ success_successLine⟩))
      success_successLine2
      (by
        intro l hl
        simp only [List.mem_singleton] at hl
        exact Or.inr ⟨hl ▸ otherType_progressNoData, hl ▸ keepsData_progressNoData⟩)⟩

/-- C3 fails as stated.  First, with no failure envelope on the output, a line of
noise of 65536 bytes behind a success envelope stops the scanner and the call returns
the error of the scanner.  Second, with no failure envelope on the output, a progress
envelope that carries a data member, behind two success envelopes, makes the call
return the data of the progress envelope, not the data of the last `lpa` envelope. -/
theorem runLpac_last_success_wins_fails :
    (parseJSON (longNoise 65536) = none ∧
        runLpac sampleLib (cleanRun (successLine ++ '\n' :: longNoise 65536)) = ([], some ErrTooLong)) ∧
      (OtherType progressLine ∧
        runLpac sampleLib (cleanRun (successLine ++ '\n' :: (successLine2 ++ '\n' :: progressLine)))
          = ("\"step\"".toList, none) ∧
        "\"step\"".toList ≠ "\"v2\"".toList) := by
  refine ⟨⟨parseJSON_longNoise 65535, ?_⟩, otherType_progressLine, by decide, by decide⟩
  rw [runLpac_of_reachesScan sampleLib _ (reachesScan_cleanRun _), cleanRun_stdout,
    scanStdout_of_lines sampleLib _ [successLine] true
      (scanLines_longNoise_second 65536 successLine (by decide) (by decide) (by decide) (by decide))]
  rw [scanLoop_step_quiet sampleLib true successLine [] zeroResp
    (harmless_of_success successLine successData success_successLine zeroResp quiet_zeroResp)]
  rfl

/-- C4, as the code has it: when no line reaches the 64 KiB limit of the scanner and
every line either leaves the record untouched (no JSON, a JSON value that is no object,
an object without envelope members; the empty stream has no line at all) or leaves it
with a type other than `lpa` and with its data untouched (an envelope of another type
without a data member), `runLpac` returns a nil payload and no error. -/
theorem runLpac_no_envelope (lib : GoLib) (x : Invocation) (lines : List Text)
    (hx : ReachesScan x) (hlines : scanLines x.stdout = (lines, false))
    (h : ∀ l ∈ lines, Inert l ∨ (OtherType l ∧ KeepsData l)) :
    runLpac lib x = ([], none) := by
  rw [runLpac_of_reachesScan lib x hx, scanStdout_of_lines lib x.stdout _ false hlines]
  have hh : ∀ l ∈ lines, Harmless l := by
    intro l hl
    rcases h l hl with h1 | h1
    · exact harmless_of_inert l h1
    · exact harmless_of_otherType l h1.1
  have h1 := scanLoop_harmless lib false lines [] zeroResp quiet_zeroResp hh
  rw [List.append_nil] at h1
  rw [h1.1, scanLoop]
  have hdata : ∀ (ls : List Text), (∀ l ∈ ls, Inert l ∨ (OtherType l ∧ KeepsData l)) →
      ∀ resp, (decodeAll ls resp).Payload.Data = resp.Payload.Data := by
    intro ls
    induction ls with
    | nil => intro _ resp; rfl
    | cons l ls ih =>
      intro hl resp
      have ih1 := ih (fun m hm => hl m (by simp [hm])) (unmarshalResp l resp).1
      have hstep : decodeAll (l :: ls) resp = decodeAll ls (unmarshalResp l resp).1 := rfl
      rw [hstep, ih1]
      rcases hl l (by simp) with h2 | h2
      · rw [h2 resp]
      · exact h2.2 resp
  rw [hdata lines h zeroResp]
  rfl

/-- C4, as the code has it, on noise, a progress envelope without data, a JSON array
and an empty object. -/
theorem runLpac_no_envelope_witness :
    scanLines (cleanRun "driver: ready\n\x7b\"type\":\"progress\",\"payload\":\x7b\"code\":0,\"message\":\"es9p\"\x7d\x7d\n[1,2]\n\x7b\x7d\n".toList).stdout
        = ([noiseLine, progressNoData, "[1,2]".toList, "\x7b\x7d".toList], false) ∧
      runLpac sampleLib (cleanRun "driver: ready\n\x7b\"type\":\"progress\",\"payload\":\x7b\"code\":0,\"message\":\"es9p\"\x7d\x7d\n[1,2]\n\x7b\x7d\n".toList)
        = ([], none) :=
  ⟨by decide,
    runLpac_no_envelope sampleLib _ [noiseLine, progressNoData, "[1,2]".toList, "\x7b\x7d".toList]
      (reachesScan_cleanRun _) (by decide)
      (by
        intro l hl
        simp only [List.mem_cons, List.mem_singleton, List.not_mem_nil, or_false] at hl
        rcases hl with h | h | h | h
        · exact Or.inl (h ▸ inert_noiseLine)
        · exact Or.inr ⟨h ▸ otherType_progressNoData, h ▸ keepsData_progressNoData⟩
        · exact Or.inl (h ▸ (fun _ => rfl))
        · exact Or.inl (h ▸ (fun _ => rfl)))⟩

/-- C4 fails as stated.  First, a stream that is one line of noise of 65536 bytes has
no `lpa` envelope, and the call returns the error of the scanner.  Second, a stream
that is one progress envelope has no `lpa` envelope, and the call returns the data of
the progress envelope as the payload. -/
theorem runLpac_no_envelope_fails :
    (parseJSON (longNoise 65536) = none ∧
        runLpac sampleLib (cleanRun (longNoise 65536)) = ([], some ErrTooLong)) ∧
      (OtherType progressLine ∧
        runLpac sampleLib (cleanRun progressLine) = ("\"step\"".toList, none)) := by
  refine ⟨⟨parseJSON_longNoise 65535, ?_⟩, otherType_progressLine, by decide⟩
  rw [runLpac_of_reachesScan sampleLib _ (reachesScan_cleanRun _), cleanRun_stdout,
    scanStdout_of_lines sampleLib _ [] true (scanLines_longNoise_alone 65536 (by decide))]
  rfl

/-- C5 fails on the code: the record `resp` is declared before the loop, so the fields
for which a line has no member keep what an earlier line stored.  The failure line
`bareFailure` alone yields an error with empty message and data; behind `successLine2`
and behind `successLine3` the scan ends on that same line with two different error
texts, made of the message and the data of the earlier line.  The line `untypedLine`
has no type and alone is skipped; behind `successLine2` it takes the type `lpa` from
that line and ends the scan with an error. -/
theorem unmarshal_keeps_stale_fields :
    (runLpac sampleLib (cleanRun bareFailure) = ([], some "Function: \nData: ".toList) ∧
        runLpac sampleLib (cleanRun (successLine2 ++ '\n' :: bareFailure))
          = ([], some "Function: success\nData: v2\n".toList) ∧
        runLpac sampleLib (cleanRun (successLine3 ++ '\n' :: bareFailure))
          = ([], some "Function: done\nData: v3\n".toList)) ∧
      (runLpac sampleLib (cleanRun untypedLine) = ([], none) ∧
        runLpac sampleLib (cleanRun (successLine2 ++ '\n' :: untypedLine))
          = ([], some "Function: success\nData: v2\n".toList)) ∧
      ((unmarshalResp bareFailure zeroResp).1.Payload.Message = [] ∧
        (unmarshalResp bareFailure (unmarshalResp successLine2 zeroResp).1).1.Payload.Message
          = "success".toList) := by
  decide


/-! ## The claims on the rendering of a failure -/

set_option maxRecDepth 100000

theorem unmarshalMap_nil (lib : GoLib) : unmarshalMap lib [] = none := rfl

theorem wrapText_nil (lib : GoLib) : wrapText lib [] 90 = [] := rfl

theorem renderError_of_not_string (lib : GoLib) (m d : Text)
    (h : ∀ s, parseJSON d ≠ some (JValue.str s)) :
    renderError lib m d = "Function: ".toList ++ (m ++ "\nData: ".toList) := by
  have hs : (unmarshalString d []).1 = [] := by
    unfold unmarshalString
    cases hp : parseJSON d with
    | none => rfl
    | some v =>
      cases v with
      | str s => exact absurd hp (h s)
      | null => rfl
      | bool b => rfl
      | num lit => rfl
      | arr items => rfl
      | obj ms => rfl
  unfold renderError
  simp only [hs, unmarshalMap_nil, wrapText_nil, List.append_nil]

theorem unmarshalString_of_string (d s : Text) (h : parseJSON d = some (JValue.str s)) :
    (unmarshalString d []).1 = s := by
  unfold unmarshalString
  rw [h]
  rfl

theorem renderError_of_object (lib : GoLib) (m d s : Text) (members : List (Text × Text × JValue))
    (hd : parseJSON d = some (JValue.str s)) (hs : parseJSON s = some (JValue.obj members))
    (hnum : (toMap lib [] members).2 = true) :
    renderError lib m d = "Function: ".toList ++ (m ++ ("\nData: ".toList ++
      wrapText lib (marshalIndent lib (GoValue.map (toMap lib [] members).1)) 90)) := by
  have hm : unmarshalMap lib s = some (GoValue.map (toMap lib [] members).1) := by
    unfold unmarshalMap
    rw [hs]
    simp only [hnum, if_true]
  unfold renderError
  simp only [unmarshalString_of_string d s hd, hm]

theorem renderError_of_plain (lib : GoLib) (m d s : Text)
    (hd : parseJSON d = some (JValue.str s)) (hobj : ∀ ms, parseJSON s ≠ some (JValue.obj ms))
    (hnull : parseJSON s ≠ some JValue.null) (hline : ∀ c ∈ s, c ≠ '\n')
    (hwidth : displayWidth lib s ≤ 90) :
    renderError lib m d = "Function: ".toList ++ (m ++ ("\nData: ".toList ++
      (if s = [] then [] else s ++ ['\n']))) := by
  have hm : unmarshalMap lib s = none := by
    unfold unmarshalMap
    cases hp : parseJSON s with
    | none => rfl
    | some v =>
      cases v with
      | obj ms => exact absurd hp (hobj ms)
      | null => exact absurd hp hnull
      | bool b => rfl
      | num lit => rfl
      | str t => rfl
      | arr items => rfl
  unfold renderError
  simp only [unmarshalString_of_string d s hd, hm]
  rw [wrapText_line lib 90 s hline, wrapLine_fits lib 90 s hwidth]

theorem displayWidth_le (lib : GoLib) (k : Nat) (h : ∀ r, lib.RuneWidth r ≤ k) (l : Text) :
    displayWidth lib l ≤ k * l.length := by
  induction l with
  | nil => simp [displayWidth]
  | cons x xs ih =>
    have hd : displayWidth lib (x :: xs) = lib.RuneWidth x + displayWidth lib xs := by
      simp [displayWidth]
    have hx := h x
    rw [hd, List.length_cons, Nat.mul_add, Nat.mul_one]
    omega

theorem failure_objectFailure : FailureEnvelope objectFailure "es10b".toList objectData :=
  fun resp => ⟨rfl, rfl,
    (by
      have h : (unmarshalResp objectFailure resp).1.Payload.Code = -1 := rfl
      rw [h]
      decide),
    rfl, rfl⟩

theorem objectData_not_string : ∀ s, parseJSON objectData ≠ some (JValue.str s) := by
  intro s h
  have hp : parseJSON objectData
      = some (JValue.obj [("reason".toList, "\"x\"".toList, JValue.str "x".toList)]) := rfl
  rw [hp] at h
  cases h

theorem failure_nestedFailure : FailureEnvelope nestedFailure "es10b".toList nestedData :=
  fun resp => ⟨rfl, rfl,
    (by
      have h : (unmarshalResp nestedFailure resp).1.Payload.Code = -1 := rfl
      rw [h]
      decide),
    rfl, rfl⟩

/-- C6, as the code has it: when the data of a failure record does not decode as a
JSON string (an object, a number, an array, a boolean, null, or the nil data of a
record that never received any), the display text is empty and the error is exactly
`Function: <message>`, a newline and `Data: `; so is the error `runLpac` returns for
a failure envelope that carries such data. -/
theorem runLpac_data_not_string (lib : GoLib) :
    (∀ m d : Text, (∀ s, parseJSON d ≠ some (JValue.str s)) →
        renderError lib m d = "Function: ".toList ++ (m ++ "\nData: ".toList)) ∧
      (∀ (x : Invocation) (pre post : List Text) (line m d : Text) (flag : Bool),
        ReachesScan x → scanLines x.stdout = (pre ++ line :: post, flag) →
        (∀ l ∈ pre, Inert l ∨ OtherType l ∨ ∃ d1, SuccessEnvelope l d1) →
        FailureEnvelope line m d → (∀ s, parseJSON d ≠ some (JValue.str s)) →
        runLpac lib x = ([], some ("Function: ".toList ++ (m ++ "\nData: ".toList)))) := by
  refine ⟨renderError_of_not_string lib, ?_⟩
  intro x pre post line m d flag hx hlines hpre hline hd
  rw [runLpac_of_reachesScan lib x hx, scanStdout_of_lines lib x.stdout _ flag hlines,
    scanLoop_failure lib flag pre post line m d zeroResp quiet_zeroResp
      (harmless_of_classes pre hpre) hline,
    renderError_of_not_string lib m d hd]

/-- C6, as the code has it, on a failure envelope whose data is a JSON object. -/
theorem runLpac_data_not_string_witness :
    FailureEnvelope objectFailure "es10b".toList objectData ∧
      (∀ s, parseJSON objectData ≠ some (JValue.str s)) ∧
      runLpac sampleLib (cleanRun objectFailure) = ([], some "Function: es10b\nData: ".toList) :=
  ⟨failure_objectFailure, objectData_not_string,
    (runLpac_data_not_string sampleLib).2 (cleanRun objectFailure) [] [] objectFailure
      "es10b".toList objectData false (reachesScan_cleanRun _) (by decide) (by simp)
      failure_objectFailure objectData_not_string⟩

/-- C6 fails as stated: the data of the failure envelope `objectFailure` is a JSON
object, no JSON string; the text behind `Data: ` in the returned error is empty, while
the raw bytes of the data, wrapped, are the text of `objectData` and a newline. -/
theorem runLpac_data_not_string_fails :
    FailureEnvelope objectFailure "es10b".toList objectData ∧
      (unmarshalString objectData []).2 = false ∧
      runLpac sampleLib (cleanRun objectFailure) = ([], some "Function: es10b\nData: ".toList) ∧
      wrapText sampleLib objectData 90 = objectData ++ ['\n'] ∧
      runLpac sampleLib (cleanRun objectFailure)
        ≠ ([], some ("Function: es10b\nData: ".toList ++ wrapText sampleLib objectData 90)) :=
  ⟨failure_objectFailure, by decide, by decide, by decide, by decide⟩

/-- C7, as the code has it: when the data of a failure record is a JSON string whose
content is a JSON object that `json.Unmarshal` accepts (no number outside the range of
`float64`), the text behind `Data: ` is the object written again with an indentation
of two spaces and then wrapped at 90 columns; when no line of the indented text is
wider than 90 columns, that is the lines of the indented text, each followed by a
newline.  For the data `"{\"foo\":\"bar\"}"` and runes of at most two columns the
text behind `Data: ` is the three lines `{`, `  "foo": "bar"` and `}`. -/
theorem runLpac_nested_object (lib : GoLib) :
    (∀ (m d s : Text) (members : List (Text × Text × JValue)),
        parseJSON d = some (JValue.str s) → parseJSON s = some (JValue.obj members) →
        (toMap lib [] members).2 = true →
        renderError lib m d = "Function: ".toList ++ (m ++ ("\nData: ".toList ++
            wrapText lib (marshalIndent lib (GoValue.map (toMap lib [] members).1)) 90)) ∧
          ((∀ l ∈ splitNewline (marshalIndent lib (GoValue.map (toMap lib [] members).1)),
              displayWidth lib l ≤ 90) →
            wrapText lib (marshalIndent lib (GoValue.map (toMap lib [] members).1)) 90 =
              joinNL ((splitNewline (marshalIndent lib (GoValue.map (toMap lib [] members).1))).filter
                (fun l => !l.isEmpty)))) ∧
      (∀ (x : Invocation) (pre post : List Text) (line m d s : Text) (flag : Bool)
          (members : List (Text × Text × JValue)),
        ReachesScan x → scanLines x.stdout = (pre ++ line :: post, flag) →
        (∀ l ∈ pre, Inert l ∨ OtherType l ∨ ∃ d1, SuccessEnvelope l d1) →
        FailureEnvelope line m d →
        parseJSON d = some (JValue.str s) → parseJSON s = some (JValue.obj members) →
        (toMap lib [] members).2 = true →
        runLpac lib x = ([], some ("Function: ".toList ++ (m ++ ("\nData: ".toList ++
          wrapText lib (marshalIndent lib (GoValue.map (toMap lib [] members).1)) 90))))) ∧
      ((∀ r, lib.RuneWidth r ≤ 2) →
        runLpac lib (cleanRun nestedFailure)
          = ([], some "Function: es10b\nData: \x7b\n  \"foo\": \"bar\"\n\x7d\n".toList)) := by
  refine ⟨?_, ?_, ?_⟩
  · intro m d s members hd hs hnum
    exact ⟨renderError_of_object lib m d s members hd hs hnum, wrapText_fits lib 90 _⟩
  · intro x pre post line m d s flag members hx hlines hpre hline hd hs hnum
    rw [runLpac_of_reachesScan lib x hx, scanStdout_of_lines lib x.stdout _ flag hlines,
      scanLoop_failure lib flag pre post line m d zeroResp quiet_zeroResp
        (harmless_of_classes pre hpre) hline,
      renderError_of_object lib m d s members hd hs hnum]
  · intro hw
    have hlines : scanLines (cleanRun nestedFailure).stdout = ([] ++ nestedFailure :: [], false) := by
      decide
    rw [runLpac_of_reachesScan lib _ (reachesScan_cleanRun _),
      scanStdout_of_lines lib _ _ false hlines,
      scanLoop_failure lib false [] [] nestedFailure "es10b".toList nestedData zeroResp
        quiet_zeroResp (by simp) failure_nestedFailure,
      renderError_of_object lib "es10b".toList nestedData "\x7b\"foo\":\"bar\"\x7d".toList
        [("foo".toList, "\"bar\"".toList, JValue.str "bar".toList)] rfl rfl rfl]
    have hm : marshalIndent lib (GoValue.map (toMap lib []
        [("foo".toList, "\"bar\"".toList, JValue.str "bar".toList)]).1)
        = "\x7b\n  \"foo\": \"bar\"\n\x7d".toList := rfl
    rw [hm, wrapText_fits lib 90 _ (by
      intro l hl
      have hsplit : splitNewline "\x7b\n  \"foo\": \"bar\"\n\x7d".toList
          = ["\x7b".toList, "  \"foo\": \"bar\"".toList, "\x7d".toList] := by decide
      rw [hsplit] at hl
      have hlen : l.length ≤ 14 := by
        simp only [List.mem_cons, List.mem_singleton, List.not_mem_nil, or_false] at hl
        rcases hl with h | h | h <;> rw [h] <;> decide
      have := displayWidth_le lib 2 hw l
      omega)]
    rfl

/-- C7, as the code has it, on the data `"{\"foo\":\"bar\"}"`. -/
theorem runLpac_nested_object_witness :
    (∀ r, sampleLib.RuneWidth r ≤ 2) ∧
      runLpac sampleLib (cleanRun nestedFailure)
        = ([], some "Function: es10b\nData: \x7b\n  \"foo\": \"bar\"\n\x7d\n".toList) :=
  ⟨sampleLib_width, (runLpac_nested_object sampleLib).2.2 sampleLib_width⟩

/-- C7 fails as stated.  First, the data `wideData` is a JSON string that holds the
object with the one member `k`, a string of 100 letters; the indented form of the
object has a line of 109 columns, the wrap cuts that line in two, and the indented
form is no part of the returned error.  Second, with a number outside the range of
`float64` the object is not decoded, and the text behind `Data: ` is the content of
the string as it stands, not an indented form. -/
theorem runLpac_nested_object_fails :
    ((unmarshalString wideData []).1 = "\x7b\"k\":\"".toList ++ (List.replicate 100 'a' ++ "\"\x7d".toList) ∧
        (unmarshalMap sampleLib (unmarshalString wideData []).1).isSome = true ∧
        marshalIndent sampleLib (GoValue.map [("k".toList, GoValue.string (List.replicate 100 'a'))])
          = "\x7b\n  \"k\": \"".toList ++ (List.replicate 100 'a' ++ "\"\n\x7d".toList) ∧
        runLpac sampleLib (cleanRun wideFailure)
          = ([], some ("Function: es10b\nData: \x7b\n  \"k\": \"".toList ++
              (List.replicate 82 'a' ++ ('\n' :: (List.replicate 18 'a' ++ "\"\n\x7d\n".toList))))) ∧
        Contains ("Function: es10b\nData: \x7b\n  \"k\": \"".toList ++
              (List.replicate 82 'a' ++ ('\n' :: (List.replicate 18 'a' ++ "\"\n\x7d\n".toList))))
            ("\x7b\n  \"k\": \"".toList ++ (List.replicate 100 'a' ++ "\"\n\x7d".toList)) = false) ∧
      ((parseJSON "\x7b\"n\":1e999\x7d".toList).isSome = true ∧
        runLpac rangeLib (cleanRun hugeNumberFailure)
          = ([], some "Function: es10b\nData: \x7b\"n\":1e999\x7d\n".toList)) := by
  refine ⟨⟨by decide, by decide, by decide, by decide, by decide⟩, by decide, by decide⟩

/-- C8, as the code has it: when the data of a failure record is a JSON string `s`
that is neither a JSON object nor the JSON word null, and `s` is one line of at most
90 columns, the error is `Function: <message>`, a newline, `Data: ` and `s`, followed
by a newline when `s` is not empty; so is the error `runLpac` returns for a failure
envelope that carries such data. -/
theorem runLpac_plain_string (lib : GoLib) :
    (∀ m d s : Text, parseJSON d = some (JValue.str s) →
        (∀ ms, parseJSON s ≠ some (JValue.obj ms)) → parseJSON s ≠ some JValue.null →
        (∀ c ∈ s, c ≠ '\n') → displayWidth lib s ≤ 90 →
        renderError lib m d = "Function: ".toList ++ (m ++ ("\nData: ".toList ++
          (if s = [] then [] else s ++ ['\n'])))) ∧
      (∀ (x : Invocation) (pre post : List Text) (line m d s : Text) (flag : Bool),
        ReachesScan x → scanLines x.stdout = (pre ++ line :: post, flag) →
        (∀ l ∈ pre, Inert l ∨ OtherType l ∨ ∃ d1, SuccessEnvelope l d1) →
        FailureEnvelope line m d → parseJSON d = some (JValue.str s) →
        (∀ ms, parseJSON s ≠ some (JValue.obj ms)) → parseJSON s ≠ some JValue.null →
        (∀ c ∈ s, c ≠ '\n') → displayWidth lib s ≤ 90 →
        runLpac lib x = ([], some ("Function: ".toList ++ (m ++ ("\nData: ".toList ++
          (if s = [] then [] else s ++ ['\n'])))))) := by
  refine ⟨renderError_of_plain lib, ?_⟩
  intro x pre post line m d s flag hx hlines hpre hline hd hobj hnull hnl hwidth
  rw [runLpac_of_reachesScan lib x hx, scanStdout_of_lines lib x.stdout _ flag hlines,
    scanLoop_failure lib flag pre post line m d zeroResp quiet_zeroResp
      (harmless_of_classes pre hpre) hline,
    renderError_of_plain lib m d s hd hobj hnull hnl hwidth]

theorem plainText_not_json : parseJSON "plain text".toList = none := rfl

/-- C8, as the code has it, on the data `"plain text"`. -/
theorem runLpac_plain_string_witness :
    parseJSON "\"plain text\"".toList = some (JValue.str "plain text".toList) ∧
      parseJSON "plain text".toList = none ∧
      runLpac sampleLib (cleanRun failureLine)
        = ([], some "Function: es10c_enable_profile\nData: plain text\n".toList) :=
  ⟨rfl, rfl,
    (runLpac_plain_string sampleLib).2 (cleanRun failureLine) [] [] failureLine
      "es10c_enable_profile".toList "\"plain text\"".toList "plain text".toList false
      (reachesScan_cleanRun _) (by decide) (by simp) failure_failureLine rfl
      (fun ms h => by rw [plainText_not_json] at h; cases h)
      (fun h => by rw [plainText_not_json] at h; cases h)
      (by decide) (by decide)⟩

/-- C8 fails as stated.  First, for the data `"plain text"` the returned error ends
with a newline behind `plain text`, so it is not `Function: `, the message, a newline
and `Data: ` followed by exactly `plain text`.  Second, the string made of a blank and
the word `null` is one line and no JSON object, and the text behind `Data: ` is
`null` and a newline, without the blank. -/
theorem runLpac_plain_string_fails :
    (runLpac sampleLib (cleanRun failureLine)
          = ([], some "Function: es10c_enable_profile\nData: plain text\n".toList) ∧
        runLpac sampleLib (cleanRun failureLine)
          ≠ ([], some "Function: es10c_enable_profile\nData: plain text".toList)) ∧
      ((unmarshalString "\" null\"".toList []).1 = " null".toList ∧
        runLpac sampleLib (cleanRun blankNullFailure)
          = ([], some "Function: es10b\nData: null\n".toList)) := by
  decide


/-! ## The fuel of the JSON reader is enough -/

theorem skipSpace_length_le (s : Text) : (skipSpace s).length ≤ s.length := by
  induction s with
  | nil => simp [skipSpace]
  | cons c cs ih =>
    rw [skipSpace]
    split
    · exact Nat.le_trans ih (by simp)
    · exact Nat.le_refl _

theorem consUnit_some (x : StrUnit) (o : Option (List StrUnit × Text)) (us : List StrUnit) (r : Text)
    (h : consUnit x o = some (us, r)) : ∃ us1, o = some (us1, r) := by
  cases o with
  | none => simp [consUnit] at h
  | some p =>
    obtain ⟨a, b⟩ := p
    simp only [consUnit, Option.some.injEq, Prod.mk.injEq] at h
    exact ⟨a, by rw [h.2]⟩

theorem scanUnits_length (s : Text) : ∀ (us : List StrUnit) (r : Text),
    scanUnits s = some (us, r) → r.length < s.length := by
  induction s using scanUnits.induct with
  | case1 => intro us r h; simp [scanUnits] at h
  | case2 => intro us r h; simp [scanUnits] at h; rw [← h.2]; simp
  | case3 c hc => intro us r h; unfold scanUnits at h; simp [hc] at h
  | case4 e rest =>
    intro us r h
    unfold scanUnits at h
    simp at h
    rw [← h.2]
    simp
  | case5 a b c1 d rest1 u hu hq ih =>
    intro us r h
    simp only [scanUnits, hu] at h
    simp only [if_neg hq, if_true] at h
    obtain ⟨us1, h1⟩ := consUnit_some _ _ _ _ h
    have := ih us1 r h1
    simp only [List.length_cons]
    omega
  | case6 a b c1 d rest1 hu hq =>
    intro us r h
    simp only [scanUnits, hu] at h
    simp [if_neg hq] at h
  | case7 rest hrest hq =>
    intro us r h
    unfold scanUnits at h
    simp only [if_neg hq, if_true] at h
    simp at h
  | case8 e rest he r1 hr hq ih =>
    intro us r h
    unfold scanUnits at h
    simp only [if_neg hq, if_true, if_neg he, hr] at h
    obtain ⟨us1, h1⟩ := consUnit_some _ _ _ _ h
    have := ih us1 r h1
    simp only [List.length_cons]
    omega
  | case9 e rest he hr hq =>
    intro us r h
    unfold scanUnits at h
    simp [if_neg hq, if_neg he, hr] at h
  | case10 c e rest hc1 hc2 hlt =>
    intro us r h
    unfold scanUnits at h
    simp [if_neg hc1, if_neg hc2, hlt] at h
  | case11 c e rest hc1 hc2 hlt ih =>
    intro us r h
    unfold scanUnits at h
    simp only [if_neg hc1, if_neg hc2, if_neg hlt] at h
    obtain ⟨us1, h1⟩ := consUnit_some _ _ _ _ h
    have := ih us1 r h1
    simp only [List.length_cons] at this ⊢
    omega

theorem scanString_length (s t r : Text) (h : scanString s = some (t, r)) : r.length < s.length := by
  unfold scanString at h
  split at h
  · rename_i us rest hu
    simp only [Option.some.injEq, Prod.mk.injEq] at h
    rw [← h.2]
    exact scanUnits_length s us rest hu
  · simp at h

theorem takeDigits_length (s : Text) : (takeDigits s).2.length ≤ s.length := by
  induction s with
  | nil => simp [takeDigits]
  | cons c cs ih =>
    rw [takeDigits]
    split
    · exact Nat.le_trans ih (by simp)
    · exact Nat.le_refl _

theorem scanExp_length (acc s lit r : Text) (h : scanExp acc s = some (lit, r)) :
    r.length ≤ s.length := by
  cases s with
  | nil =>
    simp only [scanExp, Option.some.injEq, Prod.mk.injEq] at h
    rw [← h.2]
  | cons e t =>
    simp only [scanExp] at h
    split at h
    · split at h
      · rename_i s1 r1
        split at h
        · split at h
          · simp at h
          · simp only [Option.some.injEq, Prod.mk.injEq] at h
            rw [← h.2]
            have := takeDigits_length r1
            simp only [List.length_cons]
            omega
        · split at h
          · simp at h
          · simp only [Option.some.injEq, Prod.mk.injEq] at h
            rw [← h.2]
            have := takeDigits_length (s1 :: r1)
            simp only [List.length_cons] at this ⊢
            omega
      · simp at h
    · simp only [Option.some.injEq, Prod.mk.injEq] at h
      rw [← h.2]

theorem scanFrac_length (acc s lit r : Text) (h : scanFrac acc s = some (lit, r)) :
    r.length ≤ s.length := by
  cases s with
  | nil =>
    simp only [scanFrac, Option.some.injEq, Prod.mk.injEq] at h
    rw [← h.2]
  | cons c t =>
    simp only [scanFrac] at h
    split at h
    · split at h
      · simp at h
      · have h1 := scanExp_length _ _ _ _ h
        have := takeDigits_length t
        simp only [List.length_cons]
        omega
    · exact scanExp_length _ _ _ _ h

theorem scanInt_length (sign s lit r : Text) (h : scanInt sign s = some (lit, r)) :
    r.length < s.length := by
  cases s with
  | nil => simp [scanInt] at h
  | cons d t =>
    simp only [scanInt] at h
    split at h
    · have := scanFrac_length _ _ _ _ h
      simp only [List.length_cons]
      omega
    · split at h
      · have h1 := scanFrac_length _ _ _ _ h
        have := takeDigits_length t
        simp only [List.length_cons]
        omega
      · simp at h

theorem scanNumber_length (s lit r : Text) (h : scanNumber s = some (lit, r)) :
    r.length < s.length := by
  cases s with
  | nil => simp [scanNumber] at h
  | cons c t =>
    simp only [scanNumber] at h
    split at h
    · have := scanInt_length _ _ _ _ h
      simp only [List.length_cons]
      omega
    · exact scanInt_length _ _ _ _ h

theorem stripWord_length (w s r : Text) (h : stripWord w s = some r) : r.length ≤ s.length := by
  induction w generalizing s with
  | nil =>
    simp only [stripWord, Option.some.injEq] at h
    rw [h]
  | cons x xs ih =>
    cases s with
    | nil => simp [stripWord] at h
    | cons c cs =>
      simp only [stripWord] at h
      split at h
      · have := ih cs h
        simp only [List.length_cons]
        omega
      · simp at h


theorem parse_fuel (m : Nat) :
    (∀ (d : Nat) (s : Text) (v : JValue) (r : Text), parseValue m d s = some (v, r) →
        r.length < s.length ∧
          ∀ k, s.length - r.length ≤ k → parseValue k d s = some (v, r)) ∧
      (∀ (d : Nat) (s : Text) (vs : List JValue) (r : Text), parseElements m d s = some (vs, r) →
        r.length < s.length ∧
          ∀ k, s.length - r.length ≤ k → parseElements k d s = some (vs, r)) ∧
      (∀ (d : Nat) (s : Text) (ms : List (Text × Text × JValue)) (r : Text),
        parseMembers m d s = some (ms, r) →
        r.length < s.length ∧
          ∀ k, s.length - r.length ≤ k → parseMembers k d s = some (ms, r)) := by
  induction m with
  | zero =>
    refine ⟨?_, ?_, ?_⟩
    · intro d s v r h; simp [parseValue] at h
    · intro d s vs r h; simp [parseElements] at h
    · intro d s ms r h; simp [parseMembers] at h
  | succ n ih =>
    obtain ⟨ihV, ihE, ihM⟩ := ih
    refine ⟨?_, ?_, ?_⟩
    · intro d s v r h
      cases s with
      | nil => simp [parseValue] at h
      | cons c cs =>
        rw [parseValue] at h
        have hsk := skipSpace_length_le cs
        by_cases h1 : c = '{'
        · rw [if_pos h1] at h
          by_cases hd : d ≥ maxNestingDepth
          · rw [if_pos hd] at h; simp at h
          · rw [if_neg hd] at h
            cases hs : skipSpace cs with
            | nil => rw [hs] at h; simp at h
            | cons c1 r1 =>
              rw [hs] at h hsk
              simp only [] at h
              simp only [List.length_cons] at hsk
              by_cases h2 : c1 = '}'
              · rw [if_pos h2] at h
                simp only [Option.some.injEq, Prod.mk.injEq] at h
                obtain ⟨hv, hr⟩ := h
                subst hr
                refine ⟨by simp only [List.length_cons]; omega, ?_⟩
                intro k hk
                simp only [List.length_cons] at hk
                obtain ⟨k1, rfl⟩ : ∃ k1, k = k1 + 1 := ⟨k - 1, by omega⟩
                rw [parseValue, if_pos h1, if_neg hd, hs]
                simp only []
                rw [if_pos h2, hv]
              · rw [if_neg h2] at h
                cases hm : parseMembers n (d + 1) (c1 :: r1) with
                | none => rw [hm] at h; simp at h
                | some p =>
                  obtain ⟨ms, r2⟩ := p
                  rw [hm] at h
                  simp only [Option.some.injEq, Prod.mk.injEq] at h
                  obtain ⟨hv, hr⟩ := h
                  subst hr
                  obtain ⟨hlen, hfuel⟩ := ihM (d + 1) (c1 :: r1) ms r2 hm
                  simp only [List.length_cons] at hlen
                  refine ⟨by simp only [List.length_cons]; omega, ?_⟩
                  intro k hk
                  simp only [List.length_cons] at hk
                  obtain ⟨k1, rfl⟩ : ∃ k1, k = k1 + 1 := ⟨k - 1, by omega⟩
                  rw [parseValue, if_pos h1, if_neg hd, hs]
                  simp only []
                  rw [if_neg h2, hfuel k1 (by simp only [List.length_cons]; omega)]
                  simp only [hv]
        · rw [if_neg h1] at h
          by_cases h2 : c = '['
          · rw [if_pos h2] at h
            by_cases hd : d ≥ maxNestingDepth
            · rw [if_pos hd] at h; simp at h
            · rw [if_neg hd] at h
              cases hs : skipSpace cs with
              | nil => rw [hs] at h; simp at h
              | cons c1 r1 =>
                rw [hs] at h hsk
                simp only [] at h
                simp only [List.length_cons] at hsk
                by_cases h3 : c1 = ']'
                · rw [if_pos h3] at h
                  simp only [Option.some.injEq, Prod.mk.injEq] at h
                  obtain ⟨hv, hr⟩ := h
                  subst hr
                  refine ⟨by simp only [List.length_cons]; omega, ?_⟩
                  intro k hk
                  simp only [List.length_cons] at hk
                  obtain ⟨k1, rfl⟩ : ∃ k1, k = k1 + 1 := ⟨k - 1, by omega⟩
                  rw [parseValue, if_neg h1, if_pos h2, if_neg hd, hs]
                  simp only []
                  rw [if_pos h3, hv]
                · rw [if_neg h3] at h
                  cases hm : parseElements n (d + 1) (c1 :: r1) with
                  | none => rw [hm] at h; simp at h
                  | some p =>
                    obtain ⟨vs, r2⟩ := p
                    rw [hm] at h
                    simp only [Option.some.injEq, Prod.mk.injEq] at h
                    obtain ⟨hv, hr⟩ := h
                    subst hr
                    obtain ⟨hlen, hfuel⟩ := ihE (d + 1) (c1 :: r1) vs r2 hm
                    simp only [List.length_cons] at hlen
                    refine ⟨by simp only [List.length_cons]; omega, ?_⟩
                    intro k hk
                    simp only [List.length_cons] at hk
                    obtain ⟨k1, rfl⟩ : ∃ k1, k = k1 + 1 := ⟨k - 1, by omega⟩
                    rw [parseValue, if_neg h1, if_pos h2, if_neg hd, hs]
                    simp only []
                    rw [if_neg h3, hfuel k1 (by simp only [List.length_cons]; omega)]
                    simp only [hv]
          · rw [if_neg h2] at h
            have leaf : ∀ (res : Option (JValue × Text)),
                (∀ k1, parseValue (k1 + 1) d (c :: cs) = res) → res = some (v, r) →
                r.length < (c :: cs).length →
                r.length < (c :: cs).length ∧
                  ∀ k, (c :: cs).length - r.length ≤ k → parseValue k d (c :: cs) = some (v, r) := by
              intro res hres heq hlen
              refine ⟨hlen, ?_⟩
              intro k hk
              obtain ⟨k1, rfl⟩ : ∃ k1, k = k1 + 1 := ⟨k - 1, by omega⟩
              rw [hres k1, heq]
            by_cases h3 : c = '"'
            · rw [if_pos h3] at h
              apply leaf _ (fun k1 => by rw [parseValue, if_neg h1, if_neg h2, if_pos h3]) h
              cases hstr : scanString cs with
              | none => rw [hstr] at h; simp at h
              | some p =>
                obtain ⟨t, r1⟩ := p
                rw [hstr] at h
                simp only [Option.some.injEq, Prod.mk.injEq] at h
                have := scanString_length cs t r1 hstr
                rw [← h.2]
                simp only [List.length_cons]
                omega
            · rw [if_neg h3] at h
              by_cases h4 : c = 't'
              · rw [if_pos h4] at h
                apply leaf _ (fun k1 => by rw [parseValue, if_neg h1, if_neg h2, if_neg h3, if_pos h4]) h
                cases hw : stripWord ['r', 'u', 'e'] cs with
                | none => rw [hw] at h; simp at h
                | some r1 =>
                  rw [hw] at h
                  simp only [Option.some.injEq, Prod.mk.injEq] at h
                  have := stripWord_length _ cs r1 hw
                  rw [← h.2]
                  simp only [List.length_cons]
                  omega
              · rw [if_neg h4] at h
                by_cases h5 : c = 'f'
                · rw [if_pos h5] at h
                  apply leaf _ (fun k1 => by
                    rw [parseValue, if_neg h1, if_neg h2, if_neg h3, if_neg h4, if_pos h5]) h
                  cases hw : stripWord ['a', 'l', 's', 'e'] cs with
                  | none => rw [hw] at h; simp at h
                  | some r1 =>
                    rw [hw] at h
                    simp only [Option.some.injEq, Prod.mk.injEq] at h
                    have := stripWord_length _ cs r1 hw
                    rw [← h.2]
                    simp only [List.length_cons]
                    omega
                · rw [if_neg h5] at h
                  by_cases h6 : c = 'n'
                  · rw [if_pos h6] at h
                    apply leaf _ (fun k1 => by
                      rw [parseValue, if_neg h1, if_neg h2, if_neg h3, if_neg h4, if_neg h5,
                        if_pos h6]) h
                    cases hw : stripWord ['u', 'l', 'l'] cs with
                    | none => rw [hw] at h; simp at h
                    | some r1 =>
                      rw [hw] at h
                      simp only [Option.some.injEq, Prod.mk.injEq] at h
                      have := stripWord_length _ cs r1 hw
                      rw [← h.2]
                      simp only [List.length_cons]
                      omega
                  · rw [if_neg h6] at h
                    apply leaf _ (fun k1 => by
                      rw [parseValue, if_neg h1, if_neg h2, if_neg h3, if_neg h4, if_neg h5,
                        if_neg h6]) h
                    cases hnum : scanNumber (c :: cs) with
                    | none => rw [hnum] at h; simp at h
                    | some p =>
                      obtain ⟨lit, r1⟩ := p
                      rw [hnum] at h
                      simp only [Option.some.injEq, Prod.mk.injEq] at h
                      have := scanNumber_length (c :: cs) lit r1 hnum
                      rw [← h.2]
                      exact this
    · intro d s vs r h
      rw [parseElements] at h
      cases hv : parseValue n d s with
      | none => rw [hv] at h; simp at h
      | some p =>
        obtain ⟨v, r0⟩ := p
        rw [hv] at h
        simp only [] at h
        obtain ⟨hlen0, hfuel0⟩ := ihV d s v r0 hv
        have hsk := skipSpace_length_le r0
        cases hs : skipSpace r0 with
        | nil => rw [hs] at h; simp at h
        | cons c r1 =>
          rw [hs] at h hsk
          simp only [] at h
          simp only [List.length_cons] at hsk
          by_cases h1 : c = ','
          · rw [if_pos h1] at h
            have hsk2 := skipSpace_length_le r1
            cases he : parseElements n d (skipSpace r1) with
            | none => rw [he] at h; simp at h
            | some q =>
              obtain ⟨vs1, r2⟩ := q
              rw [he] at h
              simp only [Option.some.injEq, Prod.mk.injEq] at h
              obtain ⟨hvs, hr⟩ := h
              subst hr
              obtain ⟨hlen1, hfuel1⟩ := ihE d (skipSpace r1) vs1 r2 he
              refine ⟨by omega, ?_⟩
              intro k hk
              obtain ⟨k1, rfl⟩ : ∃ k1, k = k1 + 1 := ⟨k - 1, by omega⟩
              rw [parseElements, hfuel0 k1 (by omega)]
              simp only [hs]
              rw [if_pos h1, hfuel1 k1 (by omega)]
              simp only [hvs]
          · rw [if_neg h1] at h
            by_cases h2 : c = ']'
            · rw [if_pos h2] at h
              simp only [Option.some.injEq, Prod.mk.injEq] at h
              obtain ⟨hvs, hr⟩ := h
              subst hr
              refine ⟨by omega, ?_⟩
              intro k hk
              obtain ⟨k1, rfl⟩ : ∃ k1, k = k1 + 1 := ⟨k - 1, by omega⟩
              rw [parseElements, hfuel0 k1 (by omega)]
              simp only [hs]
              rw [if_neg h1, if_pos h2, hvs]
            · rw [if_neg h2] at h; simp at h
    · intro d s ms r h
      cases s with
      | nil => simp [parseMembers] at h
      | cons q s1 =>
        rw [parseMembers] at h
        by_cases hq : q = '"'
        · rw [if_pos hq] at h
          cases hstr : scanString s1 with
          | none => rw [hstr] at h; simp at h
          | some p =>
            obtain ⟨key, r0⟩ := p
            rw [hstr] at h
            simp only [] at h
            have hl0 := scanString_length s1 key r0 hstr
            have hsk0 := skipSpace_length_le r0
            cases hs0 : skipSpace r0 with
            | nil => rw [hs0] at h; simp at h
            | cons c r1 =>
              rw [hs0] at h hsk0
              simp only [] at h
              simp only [List.length_cons] at hsk0
              by_cases hc : c = ':'
              · rw [if_pos hc] at h
                have hsk1 := skipSpace_length_le r1
                cases hv : parseValue n d (skipSpace r1) with
                | none => rw [hv] at h; simp at h
                | some pv =>
                  obtain ⟨v, r2⟩ := pv
                  rw [hv] at h
                  simp only [] at h
                  obtain ⟨hlenv, hfuelv⟩ := ihV d (skipSpace r1) v r2 hv
                  have hsk2 := skipSpace_length_le r2
                  cases hs2 : skipSpace r2 with
                  | nil => rw [hs2] at h; simp at h
                  | cons c2 r3 =>
                    rw [hs2] at h hsk2
                    simp only [] at h
                    simp only [List.length_cons] at hsk2
                    by_cases hc2 : c2 = ','
                    · rw [if_pos hc2] at h
                      have hsk3 := skipSpace_length_le r3
                      cases hm : parseMembers n d (skipSpace r3) with
                      | none => rw [hm] at h; simp at h
                      | some pm =>
                        obtain ⟨ms1, r4⟩ := pm
                        rw [hm] at h
                        simp only [Option.some.injEq, Prod.mk.injEq] at h
                        obtain ⟨hms, hr⟩ := h
                        subst hr
                        obtain ⟨hlenm, hfuelm⟩ := ihM d (skipSpace r3) ms1 r4 hm
                        refine ⟨by simp only [List.length_cons]; omega, ?_⟩
                        intro k hk
                        simp only [List.length_cons] at hk
                        obtain ⟨k1, rfl⟩ : ∃ k1, k = k1 + 1 := ⟨k - 1, by omega⟩
                        rw [parseMembers, if_pos hq, hstr]
                        simp only [hs0]
                        rw [if_pos hc, hfuelv k1 (by omega)]
                        simp only [hs2]
                        rw [if_pos hc2, hfuelm k1 (by omega)]
                        simp only [hms]
                    · rw [if_neg hc2] at h
                      by_cases hc3 : c2 = '}'
                      · rw [if_pos hc3] at h
                        simp only [Option.some.injEq, Prod.mk.injEq] at h
                        obtain ⟨hms, hr⟩ := h
                        subst hr
                        refine ⟨by simp only [List.length_cons]; omega, ?_⟩
                        intro k hk
                        simp only [List.length_cons] at hk
                        obtain ⟨k1, rfl⟩ : ∃ k1, k = k1 + 1 := ⟨k - 1, by omega⟩
                        rw [parseMembers, if_pos hq, hstr]
                        simp only [hs0]
                        rw [if_pos hc, hfuelv k1 (by omega)]
                        simp only [hs2]
                        rw [if_neg hc2, if_pos hc3, hms]
                      · rw [if_neg hc3] at h; simp at h
              · rw [if_neg hc] at h; simp at h
        · rw [if_neg hq] at h; simp at h

/-- The fuel `parseJSON` starts with is enough: when some amount of fuel lets the
reader read a value from the input, the amount `parseJSON` uses reads the same value. -/
theorem parseJSON_fuel_enough (data : Text) (m : Nat) (v : JValue) (r : Text)
    (h : parseValue m 0 (skipSpace data) = some (v, r)) :
    parseValue (data.length + 1) 0 (skipSpace data) = some (v, r) := by
  have h1 := ((parse_fuel m).1 0 (skipSpace data) v r h).2 (data.length + 1)
  apply h1
  have := skipSpace_length_le data
  omega



/-! ## The claims on the process: smart-card short cut, start failure, arguments, environment -/

theorem mem_of_startsWith (w : Char) (ws t : Text) (h : startsWith (w :: ws) t = true) : w ∈ t := by
  cases t with
  | nil => simp [startsWith] at h
  | cons c cs =>
    simp only [startsWith, Bool.and_eq_true, decide_eq_true_eq] at h
    rw [h.1]
    simp

theorem mem_of_contains (w : Char) (ws : Text) : ∀ t : Text, Contains t (w :: ws) = true → w ∈ t := by
  intro t
  induction t with
  | nil => intro h; simp [Contains, startsWith] at h
  | cons c cs ih =>
    intro h
    simp only [Contains, Bool.or_eq_true] at h
    rcases h with h | h
    · exact mem_of_startsWith w ws (c :: cs) h
    · exact List.mem_cons_of_mem _ (ih h)

theorem dropWhile_keeps (p : Char → Bool) : ∀ l : Text, (∃ x ∈ l, p x = false) →
    ∃ x ∈ l.dropWhile p, p x = false := by
  intro l
  induction l with
  | nil => intro h; obtain ⟨x, hx, _⟩ := h; simp at hx
  | cons c cs ih =>
    intro h
    by_cases hc : p c = true
    · obtain ⟨x, hx, hpx⟩ := h
      have hx1 : x ∈ cs := by
        rcases List.mem_cons.1 hx with h1 | h1
        · rw [h1, hc] at hpx; simp at hpx
        · exact h1
      have := ih ⟨x, hx1, hpx⟩
      simpa [List.dropWhile, hc] using this
    · have hc1 : p c = false := by simpa using hc
      exact ⟨c, by simp [List.dropWhile, hc1], hc1⟩

/-- A text that holds the marker `SCard` is not made of white space only. -/
theorem trimSpace_of_contains (t : Text) (h : Contains t "SCard".toList = true) :
    (TrimSpace t).length ≠ 0 := by
  have hS : 'S' ∈ t := mem_of_contains 'S' "Card".toList t h
  have h1 := dropWhile_keeps isUnicodeSpace t ⟨'S', hS, by decide⟩
  obtain ⟨x, hx, hpx⟩ := h1
  have h2 := dropWhile_keeps isUnicodeSpace (t.dropWhile isUnicodeSpace).reverse
    ⟨x, List.mem_reverse.2 hx, hpx⟩
  obtain ⟨y, hy, _⟩ := h2
  unfold TrimSpace
  intro h0
  have hnil : ((t.dropWhile isUnicodeSpace).reverse.dropWhile isUnicodeSpace) = [] := by
    have := List.length_eq_zero.1 h0
    simpa using this
  rw [hnil] at hy
  simp at hy

/-- C11: when the command line was logged, `cmd.Run()` reports an error and the
captured standard error holds the substring `SCard`, `runLpac` returns a nil payload
and an error whose text is the whole captured standard error; and the result is the
same whatever the captured standard output is. -/
theorem runLpac_scard_short_cut (lib : GoLib) (x : Invocation) (hlog : x.logErr = none)
    (hrun : x.runErr.isSome = true) (hsc : Contains x.stderr "SCard".toList = true) :
    runLpac lib x = ([], some x.stderr) ∧
      ∀ stdout : Text,
        runLpac lib { logErr := x.logErr, runErr := x.runErr, stdout := stdout, stderr := x.stderr }
          = runLpac lib x := by
  have key : ∀ y : Invocation, y.logErr = none → y.runErr.isSome = true →
      Contains y.stderr "SCard".toList = true → runLpac lib y = ([], some y.stderr) := by
    intro y h1 h2 h3
    unfold runLpac
    rw [h1]
    simp only []
    rw [if_pos ⟨h2, trimSpace_of_contains y.stderr h3, h3⟩]
  refine ⟨key x hlog hrun hsc, ?_⟩
  intro stdout
  rw [key x hlog hrun hsc]
  exact key { logErr := x.logErr, runErr := x.runErr, stdout := stdout, stderr := x.stderr }
    hlog hrun hsc

/-- C11 on a run that exits with status 1, a result envelope on the standard output
and a smart-card error on the standard error. -/
theorem runLpac_scard_short_cut_witness :
    Contains "SCardEstablishContext() failed: 8010001D\n".toList "SCard".toList = true ∧
      runLpac sampleLib
        { logErr := none, runErr := some "exit status 1".toList, stdout := successLine,
          stderr := "SCardEstablishContext() failed: 8010001D\n".toList }
        = ([], some "SCardEstablishContext() failed: 8010001D\n".toList) :=
  ⟨by decide,
    (runLpac_scard_short_cut sampleLib
      { logErr := none, runErr := some "exit status 1".toList, stdout := successLine,
        stderr := "SCardEstablishContext() failed: 8010001D\n".toList }
      rfl rfl (by decide)).1⟩

theorem runLpac_drops_start_error (lib : GoLib) (e : Text) :
    runLpac lib { logErr := none, runErr := some e, stdout := [], stderr := [] } = ([], none) := by
  rfl

/-- C12, as the code has it: when the command line was logged, `cmd.Run()` reports an
error and nothing was written to the standard output and the standard error, the error
of the run is not returned: the guard of the short cut needs a standard error that is
not empty, the scan of the empty output visits no line, and `runLpac` returns a nil
payload and no error. -/
theorem runLpac_start_failure (lib : GoLib) (x : Invocation) (hlog : x.logErr = none)
    (hrun : x.runErr.isSome = true) (hout : x.stdout = []) (herr : x.stderr = []) :
    runLpac lib x = ([], none) := by
  obtain ⟨logErr, runErr, stdout, stderr⟩ := x
  simp only [] at hlog hrun hout herr
  subst hlog hout herr
  cases runErr with
  | none => simp at hrun
  | some e => exact runLpac_drops_start_error lib e

/-- C12, as the code has it, on a driver executable that does not exist. -/
theorem runLpac_start_failure_witness :
    runLpac sampleLib
        { logErr := none, runErr := some "fork/exec lpac: no such file or directory".toList
          stdout := [], stderr := [] }
      = ([], none) :=
  runLpac_start_failure sampleLib
    { logErr := none, runErr := some "fork/exec lpac: no such file or directory".toList
      stdout := [], stderr := [] }
    rfl rfl rfl rfl

/-- C12 fails as stated: the command line is logged, the driver executable does not
exist, so `cmd.Run()` reports an error and nothing is written to the standard output
and the standard error; the call returns a nil payload and no error, not the error of
the run. -/
theorem runLpac_start_failure_fails :
    runLpac sampleLib
        { logErr := none, runErr := some "fork/exec lpac: no such file or directory".toList
          stdout := [], stderr := [] }
        = ([], none) ∧
      (runLpac sampleLib
        { logErr := none, runErr := some "fork/exec lpac: no such file or directory".toList
          stdout := [], stderr := [] }).2
        ≠ some "fork/exec lpac: no such file or directory".toList := by
  decide

/-- C13: the argument list of `LpacProfileDownload` is `profile`, `download` and then,
in the order SMDP, MatchID, ConfirmCode, IMEI, the flag and the value of every field
that is not empty, with the flags `-s`, `-m`, `-c`, `-i`; its length is 2 plus twice
the number of fields that are not empty. -/
theorem downloadArgs_shape (info : PullInfo) :
    LpacProfileDownloadArgs info =
        ["profile".toList, "download".toList] ++
          (flagPair "-s".toList info.SMDP ++ (flagPair "-m".toList info.MatchID ++
            (flagPair "-c".toList info.ConfirmCode ++ flagPair "-i".toList info.IMEI))) ∧
      (LpacProfileDownloadArgs info).length =
        2 + 2 * (fieldCount info.SMDP + fieldCount info.MatchID + fieldCount info.ConfirmCode
          + fieldCount info.IMEI) := by
  unfold LpacProfileDownloadArgs flagPair fieldCount
  by_cases h1 : info.SMDP = [] <;> by_cases h2 : info.MatchID = [] <;>
    by_cases h3 : info.ConfirmCode = [] <;> by_cases h4 : info.IMEI = [] <;>
    simp [h1, h2, h3, h4]

/-- C14: the value given to `cmd.Env` is `LPAC_APDU=pcsc`, `LPAC_HTTP=curl` and
`DRIVER_IFID=` with the configured identifier, followed by `LIBEUICC_DEBUG_HTTP=1`
when `DebugHTTP` is set and by `LIBEUICC_DEBUG_APDU=1` when `DebugAPDU` is set; each of
the two debug entries is in the list if and only if its flag is set, and the list has
no other entry. -/
theorem cmdEnv_exact (cfg : Config) :
    cmdEnv cfg =
        ["LPAC_APDU=pcsc".toList, "LPAC_HTTP=curl".toList, "DRIVER_IFID=".toList ++ cfg.DriverIFID]
          ++ ((if cfg.DebugHTTP then ["LIBEUICC_DEBUG_HTTP=1".toList] else [])
            ++ (if cfg.DebugAPDU then ["LIBEUICC_DEBUG_APDU=1".toList] else [])) ∧
      ("LIBEUICC_DEBUG_HTTP=1".toList ∈ cmdEnv cfg ↔ cfg.DebugHTTP = true) ∧
      ("LIBEUICC_DEBUG_APDU=1".toList ∈ cmdEnv cfg ↔ cfg.DebugAPDU = true) ∧
      (∀ v ∈ cmdEnv cfg, v = "LPAC_APDU=pcsc".toList ∨ v = "LPAC_HTTP=curl".toList ∨
        v = "DRIVER_IFID=".toList ++ cfg.DriverIFID ∨ v = "LIBEUICC_DEBUG_HTTP=1".toList ∨
        v = "LIBEUICC_DEBUG_APDU=1".toList) := by
  have hne1 : "LIBEUICC_DEBUG_HTTP=1".toList ≠ "DRIVER_IFID=".toList ++ cfg.DriverIFID := by
    intro h
    have := congrArg List.head? h
    simp at this
  have hne2 : "LIBEUICC_DEBUG_APDU=1".toList ≠ "DRIVER_IFID=".toList ++ cfg.DriverIFID := by
    intro h
    have := congrArg List.head? h
    simp at this
  unfold cmdEnv
  cases hH : cfg.DebugHTTP <;> cases hA : cfg.DebugAPDU <;>
    simp [hne1, hne2]


/-! ## Lemmas on the pieces `wrapText` writes for one line -/

theorem greedy_single (lib : GoLib) (maxWidth : Nat) (a : Text) : Greedy lib maxWidth [a] :=
  ⟨trivial, trivial⟩

theorem greedy_cons_cons (lib : GoLib) (maxWidth : Nat) (a b : Text) (rest : List Text) :
    Greedy lib maxWidth (a :: b :: rest) ↔
      Follows lib maxWidth a b ∧ Greedy lib maxWidth (b :: rest) := by
  constructor
  · intro h; exact ⟨h.1, h.2⟩
  · intro h; exact ⟨h.1, h.2⟩

theorem greedy_snoc (lib : GoLib) (maxWidth : Nat) (a b : Text) :
    ∀ l : List Text, Greedy lib maxWidth (l ++ [a]) → Follows lib maxWidth a b →
      Greedy lib maxWidth (l ++ [a] ++ [b]) := by
  intro l
  induction l with
  | nil =>
    intro _ hf
    exact (greedy_cons_cons lib maxWidth a b []).2 ⟨hf, greedy_single lib maxWidth b⟩
  | cons x xs ih =>
    intro h hf
    cases xs with
    | nil =>
      have h1 := (greedy_cons_cons lib maxWidth x a []).1 h
      exact (greedy_cons_cons lib maxWidth x a [b]).2 ⟨h1.1, ih h1.2 hf⟩
    | cons y ys =>
      have h1 := (greedy_cons_cons lib maxWidth x y (ys ++ [a])).1 h
      exact (greedy_cons_cons lib maxWidth x y (ys ++ [a] ++ [b])).2 ⟨h1.1, ih h1.2 hf⟩

theorem follows_grow (lib : GoLib) (maxWidth : Nat) (x a : Text) (r : Char)
    (h : Follows lib maxWidth x a) : Follows lib maxWidth x (a ++ [r]) := by
  obtain ⟨r0, t, ha, hw⟩ := h
  exact ⟨r0, t ++ [r], by rw [ha]; rfl, hw⟩

theorem greedy_grow (lib : GoLib) (maxWidth : Nat) (a : Text) (r : Char) :
    ∀ l : List Text, Greedy lib maxWidth (l ++ [a]) → Greedy lib maxWidth (l ++ [a ++ [r]]) := by
  intro l
  induction l with
  | nil => intro _; exact greedy_single lib maxWidth _
  | cons x xs ih =>
    intro h
    cases xs with
    | nil =>
      have h1 := (greedy_cons_cons lib maxWidth x a []).1 h
      exact (greedy_cons_cons lib maxWidth x (a ++ [r]) []).2
        ⟨follows_grow lib maxWidth x a r h1.1, greedy_single lib maxWidth _⟩
    | cons y ys =>
      have h1 := (greedy_cons_cons lib maxWidth x y (ys ++ [a])).1 h
      exact (greedy_cons_cons lib maxWidth x y (ys ++ [a ++ [r]])).2 ⟨h1.1, ih h1.2⟩

theorem greedy_init (lib : GoLib) (maxWidth : Nat) :
    ∀ l : List Text, Greedy lib maxWidth (l ++ [[]]) → l = [] := by
  intro l
  induction l with
  | nil => intro _; rfl
  | cons x xs ih =>
    intro h
    cases xs with
    | nil =>
      have h1 := (greedy_cons_cons lib maxWidth x [] []).1 h
      obtain ⟨r, t, hb, _⟩ := h1.1
      cases hb
    | cons y ys =>
      have h0 : Greedy lib maxWidth (x :: y :: (ys ++ [[]])) := by simpa using h
      have h1 := (greedy_cons_cons lib maxWidth x y (ys ++ [[]])).1 h0
      have := ih (by simpa using h1.2)
      cases this

theorem wrapRune_lineInv (lib : GoLib) (maxWidth : Nat) (B : Prop) (seen : Text) (st : WrapState)
    (r : Char) (hr : B → lib.RuneWidth r ≤ maxWidth) (h : LineInv lib maxWidth B seen st) :
    LineInv lib maxWidth B (seen ++ [r]) (wrapRune lib maxWidth st r) := by
  obtain ⟨chunks, hch, hflat, hwd, hgreedy, hne⟩ := h
  unfold wrapRune
  by_cases hgt : st.currentWidth + lib.RuneWidth r > maxWidth
  · simp only [hgt, if_true]
    refine ⟨chunks ++ [st.currentLine], ?_, ?_, ?_, ?_, ?_⟩
    · simp [joinNL_append, joinNL_singleton, hch]
    · rw [← hflat]; simp
    · simp [displayWidth]
    · simp only [List.nil_append]
      apply greedy_snoc lib maxWidth st.currentLine [r] chunks hgreedy
      exact ⟨r, [], rfl, by rw [← hwd]; exact hgt⟩
    · intro hB
      refine ⟨by simpa using hr hB, ?_⟩
      intro c hc
      rcases List.mem_append.1 hc with h1 | h1
      · exact (hne hB).2 c h1
      · simp only [List.mem_singleton] at h1
        subst h1
        have hle := (hne hB).1
        refine ⟨?_, by omega⟩
        intro hnil
        rw [hnil] at hwd
        have h0 : displayWidth lib [] = 0 := rfl
        have := hr hB
        omega
  · simp only [hgt, if_false]
    refine ⟨chunks, hch, ?_, ?_, ?_, ?_⟩
    · rw [← hflat]; simp
    · simp [displayWidth_append, displayWidth_singleton, hwd]
    · exact greedy_grow lib maxWidth st.currentLine r chunks hgreedy
    · intro hB
      refine ⟨?_, (hne hB).2⟩
      show st.currentWidth + lib.RuneWidth r ≤ maxWidth
      omega

theorem foldl_wrapRune_lineInv (lib : GoLib) (maxWidth : Nat) (B : Prop) (rest : Text) :
    ∀ (seen : Text) (st : WrapState), (B → ∀ r ∈ rest, lib.RuneWidth r ≤ maxWidth) →
      LineInv lib maxWidth B seen st →
      LineInv lib maxWidth B (seen ++ rest) (rest.foldl (wrapRune lib maxWidth) st) := by
  induction rest with
  | nil => intro seen st _ h; simpa using h
  | cons r rs ih =>
    intro seen st hB h
    have h1 := wrapRune_lineInv lib maxWidth B seen st r (fun b => hB b r (by simp)) h
    have h2 := ih (seen ++ [r]) _ (fun b x hx => hB b x (by simp [hx])) h1
    simpa using h2

/-- The pieces `wrapText` writes for one line: put together they are the line, every
piece but the last is full in front of the next one, and when every rune of the line
fits a line of its own no piece is empty and no piece is wider than the line. -/
theorem wrapLine_trace (lib : GoLib) (maxWidth : Nat) (B : Prop) (line : Text)
    (hB : B → ∀ r ∈ line, lib.RuneWidth r ≤ maxWidth) :
    ∃ chunks : List Text, wrapLine lib maxWidth [] line = joinNL chunks ∧
      chunks.flatten = line ∧ Greedy lib maxWidth chunks ∧
      (B → ∀ c ∈ chunks, c ≠ [] ∧ displayWidth lib c ≤ maxWidth) := by
  have h0 : LineInv lib maxWidth B [] { wrappedText := [], currentLine := [], currentWidth := 0 } :=
    ⟨[], rfl, rfl, rfl, greedy_single lib maxWidth [],
      fun _ => ⟨Nat.zero_le _, fun c hc => by simp at hc⟩⟩
  have h1 := foldl_wrapRune_lineInv lib maxWidth B line [] _ hB h0
  unfold wrapLine
  generalize line.foldl (wrapRune lib maxWidth)
    { wrappedText := [], currentLine := [], currentWidth := 0 } = st at h1
  obtain ⟨chunks, hch, hflat, hwd, hgreedy, hne⟩ := h1
  simp only [List.nil_append] at hflat
  simp only []
  by_cases hcur : st.currentLine.length > 0
  · rw [if_pos hcur]
    refine ⟨chunks ++ [st.currentLine], ?_, ?_, hgreedy, ?_⟩
    · rw [joinNL_append, joinNL_singleton, hch]
    · rw [← hflat]; simp
    · intro hb c hc
      rcases List.mem_append.1 hc with h2 | h2
      · exact (hne hb).2 c h2
      · simp only [List.mem_singleton] at h2
        subst h2
        have hle := (hne hb).1
        refine ⟨?_, by omega⟩
        intro hnil
        rw [hnil] at hcur
        simp at hcur
  · rw [if_neg hcur]
    have hnil : st.currentLine = [] := by
      cases hc : st.currentLine with
      | nil => rfl
      | cons a as => rw [hc] at hcur; simp at hcur
    rw [hnil] at hgreedy hflat
    have hc0 := greedy_init lib maxWidth chunks hgreedy
    refine ⟨[], ?_, ?_, trivial, fun _ c hc => by simp at hc⟩
    · rw [hch, hc0]
    · rw [← hflat, hc0]; rfl

theorem flatten_no_nl (chunks : List Text) (line : Text) (h : chunks.flatten = line)
    (hl : ∀ x ∈ line, x ≠ '\n') : ∀ c ∈ chunks, ∀ x ∈ c, x ≠ '\n' := by
  intro c hc x hx
  apply hl
  rw [← h]
  exact List.mem_flatten.2 ⟨c, hc, hx⟩

theorem filter_joinNL (chunks : List Text) (h : ∀ c ∈ chunks, ∀ x ∈ c, x ≠ '\n') :
    (joinNL chunks).filter (fun x => x ≠ '\n') = chunks.flatten := by
  induction chunks with
  | nil => rfl
  | cons c cs ih =>
    have hc : c.filter (fun x => decide (x ≠ '\n')) = c := by
      apply List.filter_eq_self.2
      intro x hx
      simpa using h c (by simp) x hx
    rw [joinNL_cons, List.filter_append, hc, List.filter_cons]
    simp only [ne_eq, not_true_eq_false, decide_False, Bool.false_eq_true, if_false,
      List.flatten_cons]
    rw [ih (fun d hd => h d (by simp [hd]))]

theorem flatten_splitNewline (t : Text) :
    (splitNewline t).flatten = t.filter (fun x => x ≠ '\n') := by
  induction t with
  | nil => rfl
  | cons c cs ih =>
    rw [splitNewline]
    by_cases hc : c = '\n'
    · rw [if_pos hc, List.flatten_cons, List.nil_append, ih, List.filter_cons]
      simp [hc]
    · rw [if_neg hc]
      cases hs : splitNewline cs with
      | nil => exact absurd hs (splitNewline_ne_nil cs)
      | cons l ls =>
        rw [hs] at ih
        simp only [List.flatten_cons] at ih ⊢
        rw [List.filter_cons]
        simp only [ne_eq, hc, not_false_eq_true, decide_True, if_true, List.cons_append]
        rw [ih]

theorem wrapLine_strip (lib : GoLib) (maxWidth : Nat) (l : Text) (hl : ∀ x ∈ l, x ≠ '\n') :
    (wrapLine lib maxWidth [] l).filter (fun x => x ≠ '\n') = l := by
  obtain ⟨chunks, hw, hflat, _, _⟩ := wrapLine_trace lib maxWidth False l (fun h => h.elim)
  rw [hw, filter_joinNL chunks (flatten_no_nl chunks l hflat hl), hflat]

theorem filter_flatten_map (lib : GoLib) (maxWidth : Nat) (lines : List Text)
    (h : ∀ l ∈ lines, ∀ x ∈ l, x ≠ '\n') :
    ((lines.map (wrapLine lib maxWidth [])).flatten).filter (fun x => x ≠ '\n') = lines.flatten := by
  induction lines with
  | nil => rfl
  | cons l ls ih =>
    simp only [List.map_cons, List.flatten_cons, List.filter_append]
    rw [wrapLine_strip lib maxWidth l (h l (by simp)), ih (fun m hm => h m (by simp [hm]))]

theorem pieces_of_lines (lib : GoLib) (maxWidth : Nat) (lines : List Text)
    (hw : ∀ l ∈ lines, ∀ r ∈ l, lib.RuneWidth r ≤ maxWidth)
    (hn : ∀ l ∈ lines, ∀ x ∈ l, x ≠ '\n') :
    ∃ chunks : List Text, (lines.map (wrapLine lib maxWidth [])).flatten = joinNL chunks ∧
      ∀ c ∈ chunks, c ≠ [] ∧ displayWidth lib c ≤ maxWidth ∧ ∀ x ∈ c, x ≠ '\n' := by
  induction lines with
  | nil => exact ⟨[], rfl, fun c hc => by simp at hc⟩
  | cons l ls ih =>
    obtain ⟨cs, hcs, hall⟩ := ih (fun m hm => hw m (by simp [hm])) (fun m hm => hn m (by simp [hm]))
    obtain ⟨c0, h0, hflat, _, hne⟩ := wrapLine_trace lib maxWidth True l (fun _ => hw l (by simp))
    refine ⟨c0 ++ cs, ?_, ?_⟩
    · simp only [List.map_cons, List.flatten_cons]
      rw [h0, hcs, joinNL_append]
    · intro c hc
      rcases List.mem_append.1 hc with h1 | h1
      · exact ⟨(hne trivial c h1).1, (hne trivial c h1).2,
          flatten_no_nl c0 l hflat (hn l (by simp)) c h1⟩
      · exact hall c h1

/-- When every rune of the text fits a line of its own, the text `wrapText` returns
is a sequence of pieces, each followed by a newline, none empty, none wider than the
line and none with a newline inside. -/
theorem wrapText_pieces (lib : GoLib) (maxWidth : Nat) (text : Text)
    (hw : ∀ r ∈ text, lib.RuneWidth r ≤ maxWidth) :
    ∃ chunks : List Text, wrapText lib text maxWidth = joinNL chunks ∧
      ∀ c ∈ chunks, c ≠ [] ∧ displayWidth lib c ≤ maxWidth ∧ ∀ x ∈ c, x ≠ '\n' := by
  have h := pieces_of_lines lib maxWidth (splitNewline text)
    (fun l hl r hr => hw r (mem_of_mem_splitNewline text l hl r hr))
    (splitNewline_no_nl text)
  unfold wrapText
  rw [foldl_wrapLine_eq]
  simpa using h

theorem wrapRune_flush (lib : GoLib) (maxWidth : Nat) (st : WrapState) (r : Char)
    (h : st.currentWidth + lib.RuneWidth r > maxWidth) :
    wrapRune lib maxWidth st r =
      { wrappedText := st.wrappedText ++ (st.currentLine ++ ['\n']), currentLine := [r]
        currentWidth := lib.RuneWidth r } := by
  unfold wrapRune
  simp [h]

theorem foldl_wrapRune_block (lib : GoLib) (maxWidth : Nat) (st : WrapState) (r : Char)
    (rest : Text) (hfull : st.currentWidth + lib.RuneWidth r > maxWidth)
    (hfit : lib.RuneWidth r + displayWidth lib rest ≤ maxWidth) :
    (r :: rest).foldl (wrapRune lib maxWidth) st =
      { wrappedText := st.wrappedText ++ (st.currentLine ++ ['\n']), currentLine := r :: rest
        currentWidth := lib.RuneWidth r + displayWidth lib rest } := by
  rw [List.foldl_cons, wrapRune_flush lib maxWidth st r hfull,
    foldl_wrapRune_fits lib maxWidth rest _ (by simpa using hfit)]
  rfl

/-- A line made of a first piece that fits, a second piece whose first rune does not
fit behind the first piece, and a third piece whose first rune does not fit behind the
second, is wrapped into these three pieces. -/
theorem wrapLine_three (lib : GoLib) (maxWidth : Nat) (a b d : Text) (rb rd : Char)
    (ha : displayWidth lib a ≤ maxWidth)
    (hab : displayWidth lib a + lib.RuneWidth rb > maxWidth)
    (hb : lib.RuneWidth rb + displayWidth lib b ≤ maxWidth ∧
      lib.RuneWidth rb + displayWidth lib b + lib.RuneWidth rd > maxWidth)
    (hd : lib.RuneWidth rd + displayWidth lib d ≤ maxWidth) :
    wrapLine lib maxWidth [] (a ++ ((rb :: b) ++ (rd :: d))) = joinNL [a, rb :: b, rd :: d] := by
  unfold wrapLine
  rw [List.foldl_append, List.foldl_append,
    foldl_wrapRune_fits lib maxWidth a _ (by simpa using ha),
    foldl_wrapRune_block lib maxWidth _ rb b (by simpa using hab) hb.1,
    foldl_wrapRune_block lib maxWidth _ rd d (by simpa using hb.2) hd]
  simp [joinNL]

theorem displayWidth_replicate (lib : GoLib) (c : Char) (n : Nat) :
    displayWidth lib (List.replicate n c) = lib.RuneWidth c * n := by
  rw [displayWidth_of_all_eq lib c (List.replicate n c) (fun x hx => (List.mem_replicate.1 hx).2),
    List.length_replicate]

/-! ## The claims on the shape of the wrapped text -/

/-- C15: within one input line the wrap is greedy.  The text `wrapText` returns for a
line of the input is a sequence of wrapped lines, each followed by a newline, that put
together are the input line and of which every one but the last is full: its display
width plus the width of the first rune of the next wrapped line exceeds 90.  A line of
100 glyphs of width 2 comes out as exactly three lines of 45, 45 and 10 glyphs. -/
theorem wrapText_greedy (lib : GoLib) (text l : Text) (hl : l ∈ splitNewline text) :
    (∃ chunks : List Text, wrapText lib l 90 = joinNL chunks ∧
        splitNewline (wrapText lib l 90) = chunks ++ [[]] ∧
        chunks.flatten = l ∧ Greedy lib 90 chunks) ∧
      (∀ c : Char, lib.RuneWidth c = 2 → c ≠ '\n' →
        wrapText lib (List.replicate 100 c) 90 =
          joinNL [List.replicate 45 c, List.replicate 45 c, List.replicate 10 c]) := by
  constructor
  · have hnl := splitNewline_no_nl text l hl
    obtain ⟨chunks, hw, hflat, hgreedy, _⟩ := wrapLine_trace lib 90 False l (fun h => h.elim)
    refine ⟨chunks, ?_, ?_, hflat, hgreedy⟩
    · rw [wrapText_line lib 90 l hnl, hw]
    · rw [wrapText_line lib 90 l hnl, hw,
        splitNewline_joinNL chunks (flatten_no_nl chunks l hflat hnl)]
  · intro c hc hne
    have hsplit : List.replicate 100 c
        = List.replicate 45 c ++ ((c :: List.replicate 44 c) ++ (c :: List.replicate 9 c)) := rfl
    have hnl : ∀ x ∈ List.replicate 100 c, x ≠ '\n' := by
      intro x hx
      rw [(List.mem_replicate.1 hx).2]
      exact hne
    have w45 := displayWidth_replicate lib c 45
    have w44 := displayWidth_replicate lib c 44
    have w9 := displayWidth_replicate lib c 9
    rw [wrapText_line lib 90 _ hnl, hsplit,
      wrapLine_three lib 90 (List.replicate 45 c) (List.replicate 44 c) (List.replicate 9 c) c c
        (by omega) (by omega) (by omega) (by omega)]
    rfl

/-- C15 at the first line of a text of two lines, and at the line of 100 glyphs
U+4E2D, which `sampleLib` takes as two columns wide. -/
theorem wrapText_greedy_witness :
    "ab".toList ∈ splitNewline "ab\ncd".toList ∧
      (∃ chunks : List Text, wrapText sampleLib "ab".toList 90 = joinNL chunks ∧
        splitNewline (wrapText sampleLib "ab".toList 90) = chunks ++ [[]] ∧
        chunks.flatten = "ab".toList ∧ Greedy sampleLib 90 chunks) ∧
      sampleLib.RuneWidth (Char.ofNat 0x4E2D) = 2 ∧
      wrapText sampleLib (List.replicate 100 (Char.ofNat 0x4E2D)) 90 =
        joinNL [List.replicate 45 (Char.ofNat 0x4E2D), List.replicate 45 (Char.ofNat 0x4E2D),
          List.replicate 10 (Char.ofNat 0x4E2D)] :=
  ⟨by decide, (wrapText_greedy sampleLib "ab\ncd".toList "ab".toList (by decide)).1, by decide,
    (wrapText_greedy sampleLib "ab\ncd".toList "ab".toList (by decide)).2 (Char.ofNat 0x4E2D)
      (by decide) (by decide)⟩

/-- C16: for every text and every maximum width, the runes of the text `wrapText`
returns, newlines left out, are the runes of the text, newlines left out, in the same
order. -/
theorem wrapText_keeps_runes (lib : GoLib) (text : Text) (maxWidth : Nat) :
    (wrapText lib text maxWidth).filter (fun x => x ≠ '\n') = text.filter (fun x => x ≠ '\n') := by
  unfold wrapText
  rw [foldl_wrapLine_eq, List.nil_append,
    filter_flatten_map lib maxWidth (splitNewline text) (splitNewline_no_nl text),
    flatten_splitNewline]

/-- C17: when every rune of the text is at most two columns wide, wrapping the wrapped
text again at 90 columns changes nothing. -/
theorem wrapText_idempotent (lib : GoLib) (text : Text) (h : ∀ r ∈ text, lib.RuneWidth r ≤ 2) :
    wrapText lib (wrapText lib text 90) 90 = wrapText lib text 90 := by
  obtain ⟨chunks, hw, hall⟩ := wrapText_pieces lib 90 text
    (fun r hr => Nat.le_trans (h r hr) (by decide))
  have hsplit := splitNewline_joinNL chunks (fun c hc => (hall c hc).2.2)
  rw [hw, wrapText_fits lib 90 (joinNL chunks) (by
    intro l hl
    rw [hsplit] at hl
    rcases List.mem_append.1 hl with h1 | h1
    · exact (hall l h1).2.1
    · simp only [List.mem_singleton] at h1
      rw [h1]
      exact Nat.zero_le _), hsplit]
  congr 1
  rw [List.filter_append]
  have hf : chunks.filter (fun l => !l.isEmpty) = chunks := by
    apply List.filter_eq_self.2
    intro c hc
    have := (hall c hc).1
    cases c with
    | nil => exact absurd rfl this
    | cons a as => rfl
  rw [hf]
  simp

/-- C17 at a text with an empty line and a line of 100 two-column glyphs. -/
theorem wrapText_idempotent_witness :
    (∀ r ∈ "ab\n\n".toList ++ List.replicate 100 (Char.ofNat 0x4E2D), sampleLib.RuneWidth r ≤ 2) ∧
      wrapText sampleLib (wrapText sampleLib
          ("ab\n\n".toList ++ List.replicate 100 (Char.ofNat 0x4E2D)) 90) 90
        = wrapText sampleLib ("ab\n\n".toList ++ List.replicate 100 (Char.ofNat 0x4E2D)) 90 :=
  ⟨fun r _ => sampleLib_width r,
    wrapText_idempotent sampleLib _ (fun r _ => sampleLib_width r)⟩

end EasyLPAC
